import Mathlib

/-!
Shallow embedding of the rule engine of the Color War game
(class GameState in src/game.js) and verification of its specification.

The embedding translates the rules-relevant code of game.js:
the 8×8 grid of cells, move placement (placeTile), the BFS cascade of
explosions (checkExplosions), elimination and win detection
(checkElimination) and turn advancement.  Rendering, animation metadata
and DOM updates (GameRenderer, updateTurnMessage, the animation fields of
cells) carry no rule content and are not modelled.  The two loops of the
source that are not structurally bounded — the cascade while-loop and the
turn-skipping while-loop — are modelled with explicit fuel; exhausting the
fuel yields a distinguished result, so a computation that the source would
run longer (or forever) is visible as such.
-/

namespace ColorWar

/-- Number of rows in the game grid (constant ROWS in game.js). -/
def ROWS : Nat := 8

/-- Number of columns in the game grid (constant COLS in game.js). -/
def COLS : Nat := 8

/-- Number of players (constant PLAYERS in game.js; the field
GameState.players is set to this constant in the constructor and never
modified). -/
def PLAYERS : Nat := 4

/-- One grid cell: the rules-relevant fields of the cell objects created in
the GameState constructor (game.js lines 55-62).  The animation-only fields
animationStart, animationFrom, isExploding and animationDelay are omitted.
A JS owner of null is modelled as none. -/
structure Cell where
  owner : Option Nat
  power : Nat
deriving DecidableEq

/-- The game board: grid is a JS array of rows, each row an array of cells. -/
abbrev Grid := List (List Cell)

/-- Replace the element at index i by f applied to it; no change when i is
out of range.  Models an in-place JS array element update at a valid index. -/
def updateAt {α : Type} : List α → Nat → (α → α) → List α
  | [], _, _ => []
  | x :: xs, 0, f => f x :: xs
  | x :: xs, i + 1, f => x :: updateAt xs i f

/-- Read grid[r][c]; none models the JS undefined produced by indexing
outside the array. -/
def getCell (g : Grid) (r c : Nat) : Option Cell :=
  match g[r]? with
  | none => none
  | some row => row[c]?

/-- Write grid[r][c] (no change when out of range; every write performed by
the source is at an in-range index). -/
def setCell (g : Grid) (r c : Nat) (cell : Cell) : Grid :=
  updateAt g r fun row => updateAt row c fun _ => cell

/-- GameState.getNeighbors (game.js lines 124-131): the up-to-4 orthogonal
neighbours that exist, in the source's order up, down, left, right. -/
def getNeighbors (row col : Nat) : List (Nat × Nat) :=
  (if row > 0 then [(row - 1, col)] else []) ++
    (if row < ROWS - 1 then [(row + 1, col)] else []) ++
      (if col > 0 then [(row, col - 1)] else []) ++
        (if col < COLS - 1 then [(row, col + 1)] else [])

/-- GameState.maxCapacity (game.js lines 140-142): fixed capacity 4 for
every cell. -/
def maxCapacity (_row _col : Nat) : Nat := 4

/-- The rules-relevant state of a GameState object (game.js constructor,
lines 28-68).  turnMessages and animations are presentation-only and
omitted. -/
structure GameState where
  grid : Grid
  playerOrder : List Nat
  turnNumber : Nat
  currentPlayer : Nat
  firstMoves : List Bool
  playersAlive : List Bool
  gameOver : Bool
  winner : Option Nat
deriving DecidableEq

/-- The GameState constructor for a given player order: 8×8 grid of empty
cells, all first-move flags and alive flags true, turnNumber 0, winner null,
currentPlayer = playerOrder[0].  shuffleArray is a Fisher-Yates shuffle of
[0, 1, 2, 3] whose outcome is an arbitrary permutation; the permutation is
taken as a parameter. -/
def initState (order : List Nat) : GameState where
  grid := List.replicate ROWS (List.replicate COLS { owner := none, power := 0 })
  playerOrder := order
  turnNumber := 0
  currentPlayer := order.getD 0 0
  firstMoves := List.replicate PLAYERS true
  playersAlive := List.replicate PLAYERS true
  gameOver := false
  winner := none

/-- An entry (r, c, wave) of the BFS queue of checkExplosions. -/
abbrev QueueEntry := Nat × Nat × Nat

/-- The neighbour loop of one explosion (game.js lines 293-308): each listed
neighbour gains 1 power, its owner is unconditionally overwritten with the
exploding owner, and it is appended to the queue with wave + 1 exactly when
its new power reaches capacity.  The source never indexes a missing
neighbour (getNeighbors stays in bounds), so the none branch is
unreachable on well-formed grids. -/
def spread (owner : Option Nat) (wave : Nat) :
    List (Nat × Nat) → Grid → List QueueEntry → Grid × List QueueEntry
  | [], g, q => (g, q)
  | (nr, nc) :: rest, g, q =>
    match getCell g nr nc with
    | none => spread owner wave rest g q
    | some nb =>
      let nb' : Cell := { owner := owner, power := nb.power + 1 }
      spread owner wave rest (setCell g nr nc nb')
        (if nb'.power ≥ maxCapacity nr nc then q ++ [(nr, nc, wave + 1)] else q)

/-- One dequeue of the cascade loop (game.js lines 282-310): read the
exploding cell's owner, reset the cell to power 0 / no owner, then run the
neighbour loop.  Returns the new grid and the entries appended to the
queue. -/
def explodeStep (g : Grid) (r c wave : Nat) : Grid × List QueueEntry :=
  let owner := (getCell g r c).bind Cell.owner
  spread owner wave (getNeighbors r c) (setCell g r c { owner := none, power := 0 }) []

/-- The while-loop of checkExplosions (game.js lines 281-311), with fuel
counting dequeues: queue.shift() takes the head, and new entries are pushed
at the back.  none means the loop did not drain the queue within the given
number of dequeues. -/
def runCascade : Nat → Grid → List QueueEntry → Option Grid
  | _, g, [] => some g
  | 0, _, _ :: _ => none
  | fuel + 1, g, (r, c, wave) :: rest =>
    let step := explodeStep g r c wave
    runCascade fuel step.1 (rest ++ step.2)

/-- The initial scan of checkExplosions (game.js lines 272-279): every cell
at or above capacity is enqueued with wave 0, in row-major order. -/
def scanOverloaded (g : Grid) : List QueueEntry :=
  (List.range ROWS).flatMap fun r =>
    (List.range COLS).filterMap fun c =>
      match getCell g r c with
      | some cell => if cell.power ≥ maxCapacity r c then some (r, c, 0) else none
      | none => none

/-- GameState.checkExplosions (game.js lines 268-312). -/
def checkExplosions (fuel : Nat) (g : Grid) : Option Grid :=
  runCascade fuel g (scanOverloaded g)

/-- The per-player grid scan of checkElimination (game.js lines 170-181):
whether any cell of the grid is owned by player p. -/
def playerHasTiles (g : Grid) (p : Nat) : Bool :=
  g.any fun row => row.any fun cell => cell.owner == some p

/-- GameState.checkElimination (game.js lines 162-194): skipped while any
first-move flag is still set; otherwise playersAlive[p] is recomputed as
"p owns at least one cell", and when exactly one player is alive that
player (the first true index, findIndex) becomes winner and the game
ends. -/
def checkElimination (s : GameState) : GameState :=
  if s.firstMoves.any id then s
  else
    let alive := (List.range PLAYERS).map fun p => playerHasTiles s.grid p
    if alive.countP id == 1 then
      { s with playersAlive := alive, gameOver := true,
               winner := some (alive.findIdx id) }
    else
      { s with playersAlive := alive }

/-- One turn increment (game.js lines 230-231 and 235-236): turnNumber is
incremented modulo the player count and currentPlayer is read from
playerOrder at the new index. -/
def advanceOnce (s : GameState) : GameState :=
  let t := (s.turnNumber + 1) % PLAYERS
  { s with turnNumber := t, currentPlayer := s.playerOrder.getD t 0 }

/-- The turn-skipping while-loop (game.js lines 234-237), with fuel: keep
incrementing while the candidate is not alive.  A JS read of
playersAlive at an out-of-range index yields undefined, which is falsy, so
the missing-index default is false.  none means no live candidate was found
within the given number of iterations. -/
def skipDead : Nat → GameState → Option GameState
  | 0, _ => none
  | fuel + 1, s =>
    if s.playersAlive.getD s.currentPlayer false then some s
    else skipDead fuel (advanceOnce s)

/-- The full turn advance of placeTile (game.js lines 230-237): one
unconditional increment followed by the skip loop. -/
def advanceTurn (fuel : Nat) (s : GameState) : Option GameState :=
  skipDead fuel (advanceOnce s)

/-- The mutation performed on a legal placement (game.js lines 215-222):
the cell's owner becomes the current player; a first move sets power 3 and
clears the mover's first-move flag, a later move adds 1 power. -/
def applyPlacement (s : GameState) (row col : Nat) (cell : Cell)
    (isFirstMove : Bool) : GameState :=
  if isFirstMove then
    { s with grid := setCell s.grid row col { owner := some s.currentPlayer, power := 3 },
             firstMoves := s.firstMoves.set s.currentPlayer false }
  else
    let cell' : Cell := { owner := some s.currentPlayer, power := cell.power + 1 }
    { s with grid := setCell s.grid row col cell' }

/-- Outcome of a call to placeTile.  ret is a normal return (the JS method
returns undefined; the state after the call is recorded).  typeError is the
TypeError thrown by reading a property of undefined when (row, col) indexes
outside the grid (game.js line 206/212): the throw happens before any state
mutation, so the pre-call state persists.  outOfFuel means one of the two
unbounded loops did not finish within the fuel. -/
inductive MoveResult where
  | typeError : MoveResult
  | outOfFuel : MoveResult
  | ret : GameState → MoveResult
deriving DecidableEq

/-- The legality test of placeTile (game.js lines 212-213), as a predicate:
a first move requires an unowned target, a later move a target owned by the
mover.  False as well when (row, col) is out of bounds, where the source
throws instead. -/
def legalMove (s : GameState) (row col : Nat) : Bool :=
  match getCell s.grid row col with
  | none => false
  | some cell =>
    (s.firstMoves.getD s.currentPlayer false && cell.owner == none)
      || (!s.firstMoves.getD s.currentPlayer false
            && cell.owner == some s.currentPlayer)

/-- GameState.placeTile (game.js lines 202-243): no-op once the game is
over; TypeError on an out-of-bounds coordinate; silent unchanged return on
an illegal move; otherwise apply the placement, run the cascade, run the
elimination check, and advance the turn when the game is not over. -/
def placeTile (fuel : Nat) (s : GameState) (row col : Nat) : MoveResult :=
  if s.gameOver then .ret s
  else
    match getCell s.grid row col with
    | none => .typeError
    | some cell =>
      let isFirstMove := s.firstMoves.getD s.currentPlayer false
      if (isFirstMove && cell.owner == none)
          || (!isFirstMove && cell.owner == some s.currentPlayer) then
        let s1 := applyPlacement s row col cell isFirstMove
        match checkExplosions fuel s1.grid with
        | none => .outOfFuel
        | some g2 =>
          let s2 := checkElimination { s1 with grid := g2 }
          if s2.gameOver then .ret s2
          else
            match advanceTurn fuel s2 with
            | none => .outOfFuel
            | some s3 => .ret s3
      else .ret s

/-- Well-formed board: 8 rows of 8 cells, the shape the constructor builds
and every operation preserves. -/
def gridWF (g : Grid) : Prop :=
  g.length = ROWS ∧ ∀ row ∈ g, row.length = COLS

/-- Total power on the board. -/
def totalPower (g : Grid) : Nat :=
  (g.map fun row => (row.map Cell.power).sum).sum

/-- Player p owns no cell of the grid. -/
def ownsNone (g : Grid) (p : Nat) : Prop :=
  ∀ row ∈ g, ∀ cell ∈ row, cell.owner ≠ some p

/-- One engine transition: some call to placeTile that returns normally. -/
def Step (s s' : GameState) : Prop :=
  ∃ fuel row col, placeTile fuel s row col = .ret s'

/-- A possible output of the constructor's shuffleArray: a permutation of
[0, 1, 2, 3]. -/
def ValidOrder (order : List Nat) : Prop :=
  order.Perm [0, 1, 2, 3]

/-- States reachable from a freshly constructed game by placeTile calls. -/
def Reachable (s : GameState) : Prop :=
  ∃ order, ValidOrder order ∧ Relation.ReflTransGen Step (initState order) s

instance (order : List Nat) : Decidable (ValidOrder order) :=
  List.decidablePerm order [0, 1, 2, 3]

instance (g : Grid) (p : Nat) : Decidable (ownsNone g p) :=
  inferInstanceAs (Decidable (∀ row ∈ g, ∀ cell ∈ row, cell.owner ≠ some p))

instance (g : Grid) : Decidable (gridWF g) :=
  inferInstanceAs (Decidable (g.length = ROWS ∧ ∀ row ∈ g, row.length = COLS))

/-- Run a list of moves from a state, all with the same fuel; none when some
call throws or runs out of fuel. -/
def playMoves (fuel : Nat) : GameState → List (Nat × Nat) → Option GameState
  | s, [] => some s
  | s, mv :: rest =>
    match placeTile fuel s mv.1 mv.2 with
    | .ret s' => playMoves fuel s' rest
    | _ => none

/-! ### Basic lemmas about the grid representation -/

theorem length_updateAt {α : Type} (l : List α) (i : Nat) (f : α → α) :
    (updateAt l i f).length = l.length := by
  induction l generalizing i with
  | nil => rfl
  | cons x xs ih =>
    cases i with
    | zero => rfl
    | succ j => simpa [updateAt] using ih j

theorem getElem?_updateAt_self {α : Type} (l : List α) (i : Nat) (f : α → α) :
    (updateAt l i f)[i]? = l[i]?.map f := by
  induction l generalizing i with
  | nil => rfl
  | cons x xs ih =>
    cases i with
    | zero => simp [updateAt]
    | succ j => simpa [updateAt] using ih j

theorem getElem?_updateAt_ne {α : Type} (l : List α) (i j : Nat) (f : α → α)
    (h : i ≠ j) : (updateAt l i f)[j]? = l[j]? := by
  induction l generalizing i j with
  | nil => rfl
  | cons x xs ih =>
    cases i with
    | zero =>
      cases j with
      | zero => exact absurd rfl h
      | succ j' => simp [updateAt]
    | succ i' =>
      cases j with
      | zero => simp [updateAt]
      | succ j' => simpa [updateAt] using ih i' j' (by omega)

theorem getCell_setCell_self (g : Grid) (r c : Nat) (cell : Cell)
    (h : (getCell g r c).isSome) :
    getCell (setCell g r c cell) r c = some cell := by
  unfold getCell setCell at *
  cases hr : g[r]? with
  | none => simp [hr] at h
  | some row =>
    cases hc : row[c]? with
    | none => simp [hr, hc] at h
    | some old => simp [getElem?_updateAt_self, hr, hc]

theorem getCell_setCell_ne (g : Grid) (r c r' c' : Nat) (cell : Cell)
    (h : (r', c') ≠ (r, c)) :
    getCell (setCell g r c cell) r' c' = getCell g r' c' := by
  unfold getCell setCell
  by_cases hrr : r = r'
  · subst hrr
    have hcc : c ≠ c' := by
      intro hcc
      exact h (by rw [hcc])
    rw [getElem?_updateAt_self]
    cases hrow : g[r]? with
    | none => rfl
    | some row => simp [getElem?_updateAt_ne row c c' _ hcc]
  · rw [getElem?_updateAt_ne g r r' _ hrr]

theorem isSome_getCell_setCell (g : Grid) (r c r' c' : Nat) (cell : Cell) :
    (getCell (setCell g r c cell) r' c').isSome = (getCell g r' c').isSome := by
  by_cases h : (r', c') = (r, c)
  · have hr : r' = r := congrArg Prod.fst h
    have hc : c' = c := congrArg Prod.snd h
    subst hr; subst hc
    unfold getCell setCell
    cases hrow : g[r']? with
    | none => simp [getElem?_updateAt_self, hrow]
    | some row =>
      cases hcol : row[c']? with
      | none => simp [getElem?_updateAt_self, hrow, hcol]
      | some old => simp [getElem?_updateAt_self, hrow, hcol]
  · rw [getCell_setCell_ne g r c r' c' cell h]

theorem gridWF_setCell (g : Grid) (r c : Nat) (cell : Cell) (h : gridWF g) :
    gridWF (setCell g r c cell) := by
  obtain ⟨hlen, hrows⟩ := h
  constructor
  · rw [setCell, length_updateAt, hlen]
  · intro row hrow
    rw [List.mem_iff_getElem?] at hrow
    obtain ⟨i, hi⟩ := hrow
    unfold setCell at hi
    by_cases hir : r = i
    · subst hir
      rw [getElem?_updateAt_self] at hi
      cases hg : g[r]? with
      | none => simp [hg] at hi
      | some row0 =>
        rw [hg] at hi
        simp only [Option.map_some', Option.some.injEq] at hi
        subst hi
        rw [length_updateAt]
        exact hrows row0 (List.getElem?_mem hg)
    · rw [getElem?_updateAt_ne g r i _ hir] at hi
      exact hrows row (List.getElem?_mem hi)

theorem isSome_getCell_of_lt (g : Grid) (r c : Nat) (h : gridWF g)
    (hr : r < ROWS) (hc : c < COLS) : (getCell g r c).isSome := by
  obtain ⟨hlen, hrows⟩ := h
  unfold getCell
  cases hg : g[r]? with
  | none =>
    rw [List.getElem?_eq_none_iff] at hg
    omega
  | some row =>
    have hrl : row.length = COLS := hrows row (List.getElem?_mem hg)
    cases hrow : row[c]? with
    | none =>
      rw [List.getElem?_eq_none_iff] at hrow
      omega
    | some cell => simp [hg, hrow]

theorem getCell_lt (g : Grid) (r c : Nat) (cell : Cell) (h : gridWF g)
    (hcell : getCell g r c = some cell) : r < ROWS ∧ c < COLS := by
  obtain ⟨hlen, hrows⟩ := h
  unfold getCell at hcell
  cases hg : g[r]? with
  | none => simp [hg] at hcell
  | some row =>
    rw [hg] at hcell
    change row[c]? = some cell at hcell
    have hr : r < g.length := by
      by_contra hge
      rw [List.getElem?_eq_none_iff.mpr (by omega)] at hg
      exact Option.noConfusion hg
    have hc : c < row.length := by
      by_contra hge
      rw [List.getElem?_eq_none_iff.mpr (by omega)] at hcell
      exact Option.noConfusion hcell
    have hrl := hrows row (List.getElem?_mem hg)
    omega

/-! ### Neighbour lemmas -/

theorem mem_getNeighbors (r c : Nat) (p : Nat × Nat) :
    p ∈ getNeighbors r c ↔
      (0 < r ∧ p = (r - 1, c)) ∨ (r < ROWS - 1 ∧ p = (r + 1, c)) ∨
        (0 < c ∧ p = (r, c - 1)) ∨ (c < COLS - 1 ∧ p = (r, c + 1)) := by
  obtain ⟨a, b⟩ := p
  unfold getNeighbors ROWS COLS
  split_ifs <;> simp_all [Prod.ext_iff] <;> omega

theorem getNeighbors_ne_self (r c : Nat) (p : Nat × Nat)
    (hp : p ∈ getNeighbors r c) : p ≠ (r, c) := by
  obtain ⟨a, b⟩ := p
  rw [mem_getNeighbors] at hp
  intro heq
  injection heq with ha hb
  subst ha; subst hb
  rcases hp with ⟨h1, h2⟩ | ⟨h1, h2⟩ | ⟨h1, h2⟩ | ⟨h1, h2⟩ <;>
    injection h2 with h3 h4 <;> omega

theorem getNeighbors_lt (r c : Nat) (hr : r < ROWS) (hc : c < COLS)
    (p : Nat × Nat) (hp : p ∈ getNeighbors r c) : p.1 < ROWS ∧ p.2 < COLS := by
  obtain ⟨a, b⟩ := p
  dsimp only
  rw [mem_getNeighbors] at hp
  unfold ROWS COLS at *
  rcases hp with ⟨h1, h2⟩ | ⟨h1, h2⟩ | ⟨h1, h2⟩ | ⟨h1, h2⟩ <;>
    injection h2 with h3 h4 <;> omega

theorem getNeighbors_nodup (r c : Nat) : (getNeighbors r c).Nodup := by
  unfold getNeighbors ROWS COLS
  split_ifs <;> simp_all [Prod.ext_iff] <;> omega

theorem length_getNeighbors (r c : Nat) :
    (getNeighbors r c).length =
      (if 0 < r then 1 else 0) + (if r < ROWS - 1 then 1 else 0) +
        ((if 0 < c then 1 else 0) + (if c < COLS - 1 then 1 else 0)) := by
  unfold getNeighbors
  split_ifs <;> simp_all

/-! ### The neighbour loop: full characterisation -/

/-- The queue entry that the neighbour loop produces for a neighbour whose
cell in grid g is read just before the update: enqueued with wave + 1
exactly when the incremented power reaches capacity. -/
def enqueueEntry (g : Grid) (wave : Nat) (p : Nat × Nat) : Option QueueEntry :=
  match getCell g p.1 p.2 with
  | none => none
  | some old =>
    if old.power + 1 ≥ maxCapacity p.1 p.2 then some (p.1, p.2, wave + 1) else none

theorem spread_spec (owner : Option Nat) (wave : Nat) (ps : List (Nat × Nat))
    (g : Grid) (q : List QueueEntry)
    (hnd : ps.Nodup) (hsome : ∀ p ∈ ps, (getCell g p.1 p.2).isSome) :
    (∀ p ∈ ps, ∃ old, getCell g p.1 p.2 = some old ∧
        getCell (spread owner wave ps g q).1 p.1 p.2 =
          some { owner := owner, power := old.power + 1 }) ∧
    (∀ r' c', (r', c') ∉ ps →
        getCell (spread owner wave ps g q).1 r' c' = getCell g r' c') ∧
    (spread owner wave ps g q).2 = q ++ ps.filterMap (enqueueEntry g wave) := by
  induction ps generalizing g q with
  | nil =>
    refine ⟨by simp, fun r' c' _ => rfl, by simp [spread]⟩
  | cons hd rest ih =>
    obtain ⟨nr, nc⟩ := hd
    have hhead : (getCell g nr nc).isSome := hsome (nr, nc) (by simp)
    cases hcell : getCell g nr nc with
    | none => rw [hcell] at hhead; exact absurd hhead (by simp)
    | some nb =>
      have hndr : rest.Nodup := hnd.of_cons
      have hnotmem : (nr, nc) ∉ rest := by
        intro hmem
        exact (List.nodup_cons.mp hnd).1 hmem
      have hg' : ∀ p ∈ rest,
          (getCell (setCell g nr nc { owner := owner, power := nb.power + 1 }) p.1 p.2).isSome := by
        intro p hp
        rw [isSome_getCell_setCell]
        exact hsome p (by simp [hp])
      have heq : spread owner wave ((nr, nc) :: rest) g q =
          spread owner wave rest (setCell g nr nc { owner := owner, power := nb.power + 1 })
            (if nb.power + 1 ≥ maxCapacity nr nc then q ++ [(nr, nc, wave + 1)] else q) := by
        rw [spread, hcell]
      obtain ⟨ih1, ih2, ih3⟩ := ih (setCell g nr nc { owner := owner, power := nb.power + 1 })
        (if nb.power + 1 ≥ maxCapacity nr nc then q ++ [(nr, nc, wave + 1)] else q) hndr hg'
      have hagree : ∀ p ∈ rest,
          getCell (setCell g nr nc { owner := owner, power := nb.power + 1 }) p.1 p.2 =
            getCell g p.1 p.2 := by
        intro p hp
        apply getCell_setCell_ne
        intro hpq
        apply hnotmem
        have : p = (nr, nc) := by
          obtain ⟨p1, p2⟩ := p
          exact hpq
        rw [this] at hp
        exact hp
      refine ⟨?_, ?_, ?_⟩
      · intro p hp
        rcases List.mem_cons.mp hp with hph | hpr
        · subst hph
          refine ⟨nb, hcell, ?_⟩
          rw [heq, ih2 nr nc hnotmem]
          exact getCell_setCell_self g nr nc _ hhead
        · obtain ⟨old, hold, hfin⟩ := ih1 p hpr
          rw [hagree p hpr] at hold
          exact ⟨old, hold, by rw [heq]; exact hfin⟩
      · intro r' c' hnm
        rw [List.mem_cons, not_or] at hnm
        rw [heq, ih2 r' c' hnm.2, getCell_setCell_ne g nr nc r' c' _ hnm.1]
      · rw [heq, ih3, List.filterMap_cons]
        have hfe : enqueueEntry g wave (nr, nc) =
            if nb.power + 1 ≥ maxCapacity nr nc then some (nr, nc, wave + 1) else none := by
          unfold enqueueEntry
          rw [hcell]
        rw [List.filterMap_congr (fun p hp =>
          show enqueueEntry (setCell g nr nc { owner := owner, power := nb.power + 1 }) wave p =
              enqueueEntry g wave p by
            unfold enqueueEntry
            rw [hagree p hp])]
        by_cases hcap : nb.power + 1 ≥ maxCapacity nr nc <;>
          simp [hfe, hcap]

theorem spread_gridWF (owner : Option Nat) (wave : Nat) (ps : List (Nat × Nat))
    (g : Grid) (q : List QueueEntry) (hWF : gridWF g) :
    gridWF (spread owner wave ps g q).1 := by
  induction ps generalizing g q with
  | nil => exact hWF
  | cons hd rest ih =>
    obtain ⟨nr, nc⟩ := hd
    cases hcell : getCell g nr nc with
    | none =>
      rw [spread, hcell]
      exact ih g q hWF
    | some nb =>
      rw [spread, hcell]
      exact ih _ _ (gridWF_setCell g nr nc _ hWF)

theorem getCell_setCell_cases (g : Grid) (a b r c : Nat) (cell x : Cell)
    (h : getCell (setCell g a b cell) r c = some x) :
    x = cell ∨ getCell g r c = some x := by
  by_cases hpos : (r, c) = (a, b)
  · have hr : r = a := congrArg Prod.fst hpos
    have hc : c = b := congrArg Prod.snd hpos
    subst hr; subst hc
    have hsome : (getCell g r c).isSome := by
      rw [← isSome_getCell_setCell g r c r c cell, h]
      rfl
    rw [getCell_setCell_self g r c cell hsome] at h
    exact Or.inl (Option.some.inj h).symm
  · rw [getCell_setCell_ne g a b r c cell hpos] at h
    exact Or.inr h

/-- Every cell owner written by the neighbour loop is the owner argument, so
a player owning no cell before the loop owns none after it (when the loop's
owner argument is not that player). -/
theorem spread_noOwner (owner : Option Nat) (wave : Nat) (ps : List (Nat × Nat))
    (g : Grid) (q : List QueueEntry) (p : Nat) (howner : owner ≠ some p)
    (hg : ∀ r c cell, getCell g r c = some cell → cell.owner ≠ some p) :
    ∀ r c cell, getCell (spread owner wave ps g q).1 r c = some cell →
      cell.owner ≠ some p := by
  induction ps generalizing g q with
  | nil => exact hg
  | cons hd rest ih =>
    obtain ⟨nr, nc⟩ := hd
    cases hcell : getCell g nr nc with
    | none =>
      rw [spread, hcell]
      exact ih g q hg
    | some nb =>
      rw [spread, hcell]
      refine ih _ _ ?_
      intro r c cell hget
      rcases getCell_setCell_cases g nr nc r c _ cell hget with hx | hx
      · rw [hx]
        exact howner
      · exact hg r c cell hx

/-- Explosion step: the full characterisation of one dequeue of the cascade
loop, relative to the grid before the step. -/
theorem explodeStep_spec (g : Grid) (r c wave : Nat) (hWF : gridWF g)
    (hr : r < ROWS) (hc : c < COLS) :
    getCell (explodeStep g r c wave).1 r c = some { owner := none, power := 0 } ∧
    (∀ p ∈ getNeighbors r c, ∃ old, getCell g p.1 p.2 = some old ∧
        getCell (explodeStep g r c wave).1 p.1 p.2 =
          some { owner := (getCell g r c).bind Cell.owner, power := old.power + 1 }) ∧
    (∀ r' c', (r', c') ≠ (r, c) → (r', c') ∉ getNeighbors r c →
        getCell (explodeStep g r c wave).1 r' c' = getCell g r' c') ∧
    (explodeStep g r c wave).2 = (getNeighbors r c).filterMap (enqueueEntry g wave) := by
  have hg1WF := gridWF_setCell g r c { owner := none, power := 0 } hWF
  have hsome : ∀ p ∈ getNeighbors r c,
      (getCell (setCell g r c { owner := none, power := 0 }) p.1 p.2).isSome := by
    intro p hp
    obtain ⟨h1, h2⟩ := getNeighbors_lt r c hr hc p hp
    exact isSome_getCell_of_lt _ p.1 p.2 hg1WF h1 h2
  obtain ⟨sp1, sp2, sp3⟩ := spread_spec ((getCell g r c).bind Cell.owner) wave
    (getNeighbors r c) (setCell g r c { owner := none, power := 0 }) []
    (getNeighbors_nodup r c) hsome
  have hagree : ∀ p ∈ getNeighbors r c,
      getCell (setCell g r c { owner := none, power := 0 }) p.1 p.2 = getCell g p.1 p.2 := by
    intro p hp
    exact getCell_setCell_ne g r c p.1 p.2 _ (getNeighbors_ne_self r c p hp)
  refine ⟨?_, ?_, ?_, ?_⟩
  · show getCell (spread _ wave (getNeighbors r c) _ []).1 r c = _
    rw [sp2 r c (fun hmem => getNeighbors_ne_self r c (r, c) hmem rfl)]
    exact getCell_setCell_self g r c _ (isSome_getCell_of_lt g r c hWF hr hc)
  · intro p hp
    obtain ⟨old, hold, hfin⟩ := sp1 p hp
    rw [hagree p hp] at hold
    exact ⟨old, hold, hfin⟩
  · intro r' c' hne hnm
    show getCell (spread _ wave (getNeighbors r c) _ []).1 r' c' = _
    rw [sp2 r' c' hnm, getCell_setCell_ne g r c r' c' _ hne]
  · show (spread _ wave (getNeighbors r c) _ []).2 = _
    rw [sp3, List.filterMap_congr (fun p hp =>
      show enqueueEntry (setCell g r c { owner := none, power := 0 }) wave p =
          enqueueEntry g wave p by
        unfold enqueueEntry
        rw [hagree p hp])]
    simp

/-! ### The cascade loop drains every over-capacity cell -/

/-- Loop invariant of checkExplosions: every cell at or above capacity has a
pending queue entry. -/
def QueueInv (g : Grid) (q : List QueueEntry) : Prop :=
  ∀ r c cell, getCell g r c = some cell → maxCapacity r c ≤ cell.power →
    ∃ wave, (r, c, wave) ∈ q

theorem runCascade_belowCap (fuel : Nat) (g : Grid) (q : List QueueEntry)
    (g' : Grid) (hWF : gridWF g)
    (hq : ∀ e ∈ q, e.1 < ROWS ∧ e.2.1 < COLS)
    (hinv : QueueInv g q) (hrun : runCascade fuel g q = some g') :
    gridWF g' ∧
      ∀ r c cell, getCell g' r c = some cell → cell.power < maxCapacity r c := by
  induction fuel generalizing g q with
  | zero =>
    cases q with
    | nil =>
      cases hrun
      refine ⟨hWF, fun r c cell hget => ?_⟩
      by_contra hge
      obtain ⟨wave, hmem⟩ := hinv r c cell hget (by omega)
      exact absurd hmem (List.not_mem_nil _)
    | cons e rest => exact Option.noConfusion hrun
  | succ fuel ih =>
    cases q with
    | nil =>
      cases hrun
      refine ⟨hWF, fun r c cell hget => ?_⟩
      by_contra hge
      obtain ⟨wave, hmem⟩ := hinv r c cell hget (by omega)
      exact absurd hmem (List.not_mem_nil _)
    | cons e rest =>
      obtain ⟨r0, c0, w0⟩ := e
      obtain ⟨hr0, hc0⟩ := hq (r0, c0, w0) (by simp)
      rw [runCascade] at hrun
      obtain ⟨es1, es2, es3, es4⟩ := explodeStep_spec g r0 c0 w0 hWF hr0 hc0
      have hWF2 : gridWF (explodeStep g r0 c0 w0).1 := by
        unfold explodeStep
        exact spread_gridWF _ w0 _ _ _ (gridWF_setCell g r0 c0 _ hWF)
      have hq2 : ∀ e ∈ rest ++ (explodeStep g r0 c0 w0).2,
          e.1 < ROWS ∧ e.2.1 < COLS := by
        intro e he
        rcases List.mem_append.mp he with he | he
        · exact hq e (by simp [he])
        · rw [es4] at he
          obtain ⟨p, hp, hpe⟩ := List.mem_filterMap.mp he
          have hplt := getNeighbors_lt r0 c0 hr0 hc0 p hp
          unfold enqueueEntry at hpe
          cases hpc : getCell g p.1 p.2 with
          | none => rw [hpc] at hpe; exact Option.noConfusion hpe
          | some old =>
            rw [hpc] at hpe
            simp only [] at hpe
            split at hpe
            · cases hpe
              simpa using hplt
            · exact Option.noConfusion hpe
      have hinv2 : QueueInv (explodeStep g r0 c0 w0).1
          (rest ++ (explodeStep g r0 c0 w0).2) := by
        intro r c cell hget hcap
        by_cases hcenter : (r, c) = (r0, c0)
        · have hrr : r = r0 := congrArg Prod.fst hcenter
          have hcc : c = c0 := congrArg Prod.snd hcenter
          subst hrr; subst hcc
          rw [es1] at hget
          cases hget
          simp [maxCapacity] at hcap
        · by_cases hnb : (r, c) ∈ getNeighbors r0 c0
          · obtain ⟨old, hold, hfin⟩ := es2 (r, c) hnb
            rw [hfin] at hget
            cases hget
            refine ⟨w0 + 1, List.mem_append.mpr (Or.inr ?_)⟩
            rw [es4]
            refine List.mem_filterMap.mpr ⟨(r, c), hnb, ?_⟩
            have hcap' : maxCapacity r c ≤ old.power + 1 := by simpa using hcap
            unfold enqueueEntry
            rw [hold]
            simp only []
            split
            · rfl
            · omega
          · rw [es3 r c hcenter hnb] at hget
            obtain ⟨wave, hmem⟩ := hinv r c cell hget hcap
            rcases List.mem_cons.mp hmem with hmem | hmem
            · exfalso
              apply hcenter
              have h1 : r = r0 := congrArg (fun e : QueueEntry => e.1) hmem
              have h2 : c = c0 := congrArg (fun e : QueueEntry => e.2.1) hmem
              rw [h1, h2]
            · exact ⟨wave, List.mem_append.mpr (Or.inl hmem)⟩
      exact ih _ _ hWF2 hq2 hinv2 hrun

theorem scanOverloaded_mem (g : Grid) (r c : Nat) (cell : Cell)
    (hWF : gridWF g) (hget : getCell g r c = some cell)
    (hcap : maxCapacity r c ≤ cell.power) : (r, c, 0) ∈ scanOverloaded g := by
  obtain ⟨hr, hc⟩ := getCell_lt g r c cell hWF hget
  unfold scanOverloaded
  rw [List.mem_flatMap]
  refine ⟨r, List.mem_range.mpr hr, ?_⟩
  rw [List.mem_filterMap]
  refine ⟨c, List.mem_range.mpr hc, ?_⟩
  rw [hget]
  simp only []
  split
  · rfl
  · omega

/-- When checkExplosions drains its queue, no cell of the resulting grid is
at or above capacity, and the grid shape is preserved. -/
theorem checkExplosions_spec (fuel : Nat) (g g' : Grid) (hWF : gridWF g)
    (hrun : checkExplosions fuel g = some g') :
    gridWF g' ∧
      ∀ r c cell, getCell g' r c = some cell → cell.power < maxCapacity r c := by
  apply runCascade_belowCap fuel g (scanOverloaded g) g' hWF ?_ ?_ hrun
  · intro e he
    unfold scanOverloaded at he
    obtain ⟨r, hr, he⟩ := List.mem_flatMap.mp he
    obtain ⟨c, hc, he⟩ := List.mem_filterMap.mp he
    cases hget : getCell g r c with
    | none => rw [hget] at he; exact Option.noConfusion he
    | some cell =>
      rw [hget] at he
      simp only [] at he
      split at he
      · cases he
        exact ⟨List.mem_range.mp hr, List.mem_range.mp hc⟩
      · exact Option.noConfusion he
  · intro r c cell hget hcap
    exact ⟨0, scanOverloaded_mem g r c cell hWF hget hcap⟩

/-- The cascade never writes a cell owner that does not already own a cell:
a player with no cells before checkExplosions has none after it. -/
theorem runCascade_noOwner (fuel : Nat) (g : Grid) (q : List QueueEntry)
    (g' : Grid) (p : Nat)
    (hg : ∀ r c cell, getCell g r c = some cell → cell.owner ≠ some p)
    (hrun : runCascade fuel g q = some g') :
    ∀ r c cell, getCell g' r c = some cell → cell.owner ≠ some p := by
  induction fuel generalizing g q with
  | zero =>
    cases q with
    | nil => cases hrun; exact hg
    | cons e rest => exact Option.noConfusion hrun
  | succ fuel ih =>
    cases q with
    | nil => cases hrun; exact hg
    | cons e rest =>
      obtain ⟨r0, c0, w0⟩ := e
      rw [runCascade] at hrun
      refine ih _ _ ?_ hrun
      unfold explodeStep
      have howner : (getCell g r0 c0).bind Cell.owner ≠ some p := by
        cases hc : getCell g r0 c0 with
        | none => simp
        | some cell => exact hg r0 c0 cell hc
      refine spread_noOwner _ w0 _ _ _ p howner ?_
      intro r c cell hget
      rcases getCell_setCell_cases g r0 c0 r c _ cell hget with hx | hx
      · rw [hx]
        simp
      · exact hg r c cell hx

/-! ### Field-preservation lemmas for the pipeline stages -/

theorem checkElimination_fields (s : GameState) :
    (checkElimination s).grid = s.grid ∧
      (checkElimination s).playerOrder = s.playerOrder ∧
      (checkElimination s).turnNumber = s.turnNumber ∧
      (checkElimination s).currentPlayer = s.currentPlayer ∧
      (checkElimination s).firstMoves = s.firstMoves := by
  unfold checkElimination
  split
  · exact ⟨rfl, rfl, rfl, rfl, rfl⟩
  · simp only []
    split
    · exact ⟨rfl, rfl, rfl, rfl, rfl⟩
    · exact ⟨rfl, rfl, rfl, rfl, rfl⟩

theorem checkElimination_skip (s : GameState) (h : s.firstMoves.any id = true) :
    checkElimination s = s := by
  unfold checkElimination
  rw [if_pos h]

theorem advanceOnce_fields (s : GameState) :
    (advanceOnce s).grid = s.grid ∧
      (advanceOnce s).playerOrder = s.playerOrder ∧
      (advanceOnce s).firstMoves = s.firstMoves ∧
      (advanceOnce s).playersAlive = s.playersAlive ∧
      (advanceOnce s).gameOver = s.gameOver ∧
      (advanceOnce s).winner = s.winner := by
  unfold advanceOnce
  exact ⟨rfl, rfl, rfl, rfl, rfl, rfl⟩

theorem advanceOnce_turn (s : GameState) :
    (advanceOnce s).turnNumber = (s.turnNumber + 1) % PLAYERS ∧
      (advanceOnce s).currentPlayer =
        s.playerOrder.getD ((s.turnNumber + 1) % PLAYERS) 0 := by
  unfold advanceOnce
  exact ⟨rfl, rfl⟩

/-- Iterating advanceOnce k+1 times from s lands on turn index
(s.turnNumber + k + 1) % PLAYERS and the corresponding playerOrder entry. -/
theorem advanceOnce_iterate (s : GameState) (k : Nat) :
    (advanceOnce^[k + 1] s).turnNumber = (s.turnNumber + k + 1) % PLAYERS ∧
      (advanceOnce^[k + 1] s).currentPlayer =
        s.playerOrder.getD ((s.turnNumber + k + 1) % PLAYERS) 0 ∧
      (advanceOnce^[k + 1] s).playersAlive = s.playersAlive ∧
      (advanceOnce^[k + 1] s).playerOrder = s.playerOrder ∧
      (advanceOnce^[k + 1] s).grid = s.grid ∧
      (advanceOnce^[k + 1] s).firstMoves = s.firstMoves ∧
      (advanceOnce^[k + 1] s).gameOver = s.gameOver ∧
      (advanceOnce^[k + 1] s).winner = s.winner := by
  induction k with
  | zero =>
    rw [Function.iterate_one]
    unfold advanceOnce
    refine ⟨rfl, rfl, rfl, rfl, rfl, rfl, rfl, rfl⟩
  | succ k ih =>
    rw [Function.iterate_succ_apply']
    obtain ⟨ih1, ih2, ih3, ih4, ih5, ih6, ih7, ih8⟩ := ih
    unfold advanceOnce
    refine ⟨?_, ?_, ih3, ih4, ih5, ih6, ih7, ih8⟩
    · show ((advanceOnce^[k + 1] s).turnNumber + 1) % PLAYERS = _
      rw [ih1]
      simp only [PLAYERS]
      omega
    · show (advanceOnce^[k + 1] s).playerOrder.getD
          (((advanceOnce^[k + 1] s).turnNumber + 1) % PLAYERS) 0 = _
      rw [ih1, ih4]
      congr 1
      simp only [PLAYERS]
      omega

/-! ### The turn-skipping loop -/

/-- skipDead lands on the first iterate of advanceOnce whose candidate is
alive, all earlier iterates being dead candidates. -/
theorem skipDead_spec (fuel : Nat) (s s' : GameState)
    (h : skipDead fuel s = some s') :
    ∃ m, m < fuel ∧ s' = advanceOnce^[m] s ∧
      (advanceOnce^[m] s).playersAlive.getD (advanceOnce^[m] s).currentPlayer false = true ∧
      ∀ j < m,
        (advanceOnce^[j] s).playersAlive.getD (advanceOnce^[j] s).currentPlayer false = false := by
  induction fuel generalizing s with
  | zero => exact Option.noConfusion h
  | succ fuel ih =>
    rw [skipDead] at h
    by_cases halive : s.playersAlive.getD s.currentPlayer false = true
    · rw [if_pos halive] at h
      refine ⟨0, by omega, (Option.some.inj h).symm, halive, ?_⟩
      intro j hj
      omega
    · rw [if_neg halive] at h
      obtain ⟨m, hm, heq, halive', hskip⟩ := ih (advanceOnce s) h
      refine ⟨m + 1, by omega, ?_, ?_, ?_⟩
      · rw [Function.iterate_succ_apply]
        exact heq
      · rw [Function.iterate_succ_apply]
        exact halive'
      · intro j hj
        cases j with
        | zero =>
          simp only [Function.iterate_zero, id_eq]
          simp only [Bool.not_eq_true] at halive
          exact halive
        | succ j' =>
          rw [Function.iterate_succ_apply]
          exact hskip j' (by omega)

/-! ### Dissection of placeTile -/

/-- The state placeTile hands to the cascade on an accepted move: the board
mutation of game.js lines 215-222, packaged over the target cell read. -/
def postPlacement (s : GameState) (row col : Nat) : GameState :=
  match getCell s.grid row col with
  | none => s
  | some cell => applyPlacement s row col cell (s.firstMoves.getD s.currentPlayer false)

theorem placeTile_gameOver (fuel : Nat) (s : GameState) (row col : Nat)
    (h : s.gameOver = true) : placeTile fuel s row col = .ret s := by
  unfold placeTile
  rw [if_pos h]

theorem placeTile_oob (fuel : Nat) (s : GameState) (row col : Nat)
    (hGO : s.gameOver = false) (h : getCell s.grid row col = none) :
    placeTile fuel s row col = .typeError := by
  unfold placeTile
  rw [hGO, h]
  rfl

theorem placeTile_illegal (fuel : Nat) (s : GameState) (row col : Nat)
    (cell : Cell) (hGO : s.gameOver = false)
    (hcell : getCell s.grid row col = some cell)
    (h : legalMove s row col = false) : placeTile fuel s row col = .ret s := by
  have hcond : ((s.firstMoves.getD s.currentPlayer false && cell.owner == none)
      || (!s.firstMoves.getD s.currentPlayer false
            && cell.owner == some s.currentPlayer)) = false := by
    unfold legalMove at h
    rw [hcell] at h
    exact h
  unfold placeTile
  rw [hGO, if_neg Bool.false_ne_true, hcell]
  simp only []
  rw [hcond, if_neg Bool.false_ne_true]

/-- Inversion of a normal return of placeTile into its three source paths:
game already over, silent rejection, or the accepted pipeline
placement → cascade → elimination → (turn advance unless the game ended). -/
theorem placeTile_ret_inv (fuel : Nat) (s : GameState) (row col : Nat)
    (s' : GameState) (hret : placeTile fuel s row col = .ret s') :
    (s.gameOver = true ∧ s' = s) ∨
    (s.gameOver = false ∧ legalMove s row col = false ∧ s' = s) ∨
    (s.gameOver = false ∧ legalMove s row col = true ∧
      ∃ g2, checkExplosions fuel (postPlacement s row col).grid = some g2 ∧
        (((checkElimination { postPlacement s row col with grid := g2 }).gameOver = true ∧
            s' = checkElimination { postPlacement s row col with grid := g2 }) ∨
          ((checkElimination { postPlacement s row col with grid := g2 }).gameOver = false ∧
            advanceTurn fuel (checkElimination { postPlacement s row col with grid := g2 }) =
              some s'))) := by
  unfold placeTile at hret
  split at hret
  · rename_i hgo
    exact Or.inl ⟨hgo, (MoveResult.ret.inj hret).symm⟩
  · rename_i hgo
    have hgo' : s.gameOver = false := by
      simpa using hgo
    split at hret
    · exact absurd hret (by simp)
    · rename_i cell hcell
      have hleg : legalMove s row col =
          ((s.firstMoves.getD s.currentPlayer false && cell.owner == none)
            || (!s.firstMoves.getD s.currentPlayer false
                  && cell.owner == some s.currentPlayer)) := by
        unfold legalMove
        rw [hcell]
      have hpp : postPlacement s row col =
          applyPlacement s row col cell (s.firstMoves.getD s.currentPlayer false) := by
        unfold postPlacement
        rw [hcell]
      simp only [] at hret
      split at hret
      · rename_i hcond
        refine Or.inr (Or.inr ⟨hgo', by rw [hleg]; exact hcond, ?_⟩)
        split at hret
        · exact absurd hret (by simp)
        · rename_i g2 hx
          refine ⟨g2, by rw [hpp]; exact hx, ?_⟩
          split at hret
          · rename_i hg2
            refine Or.inl ⟨by rw [hpp]; exact hg2, ?_⟩
            rw [hpp]
            exact (MoveResult.ret.inj hret).symm
          · rename_i hg2
            refine Or.inr ⟨by rw [hpp]; simpa using hg2, ?_⟩
            split at hret
            · exact absurd hret (by simp)
            · rename_i s3 hadv
              rw [hpp, ← MoveResult.ret.inj hret]
              exact hadv
      · rename_i hcond
        refine Or.inr (Or.inl ⟨hgo', ?_, (MoveResult.ret.inj hret).symm⟩)
        rw [hleg]
        simpa using hcond

/-! ### Running move lists and reachability -/

theorem playMoves_append (fuel : Nat) (s : GameState) (ms1 ms2 : List (Nat × Nat)) :
    playMoves fuel s (ms1 ++ ms2) =
      (playMoves fuel s ms1).bind fun t => playMoves fuel t ms2 := by
  induction ms1 generalizing s with
  | nil => rfl
  | cons mv rest ih =>
    rw [List.cons_append, playMoves, playMoves]
    cases hp : placeTile fuel s mv.1 mv.2 with
    | ret s1 => exact ih s1
    | typeError => rfl
    | outOfFuel => rfl

theorem playMoves_single (fuel : Nat) (s : GameState) (r c : Nat) (s' : GameState)
    (h : playMoves fuel s [(r, c)] = some s') : placeTile fuel s r c = .ret s' := by
  rw [playMoves] at h
  cases hp : placeTile fuel s r c with
  | ret s1 =>
    rw [show placeTile fuel s (r, c).1 (r, c).2 = .ret s1 from hp] at h
    simp only [] at h
    rw [playMoves] at h
    rw [Option.some.inj h]
  | typeError =>
    rw [show placeTile fuel s (r, c).1 (r, c).2 = .typeError from hp] at h
    exact Option.noConfusion h
  | outOfFuel =>
    rw [show placeTile fuel s (r, c).1 (r, c).2 = .outOfFuel from hp] at h
    exact Option.noConfusion h

theorem playMoves_steps (fuel : Nat) (s0 : GameState) (ms : List (Nat × Nat))
    (s : GameState) (h : playMoves fuel s0 ms = some s) :
    Relation.ReflTransGen Step s0 s := by
  induction ms generalizing s0 with
  | nil =>
    rw [playMoves] at h
    rw [← Option.some.inj h]
  | cons mv rest ih =>
    rw [playMoves] at h
    cases hp : placeTile fuel s0 mv.1 mv.2 with
    | ret s1 =>
      rw [hp] at h
      exact Relation.ReflTransGen.head ⟨fuel, mv.1, mv.2, hp⟩ (ih s1 h)
    | typeError => rw [hp] at h; exact Option.noConfusion h
    | outOfFuel => rw [hp] at h; exact Option.noConfusion h

theorem playMoves_reachable (fuel : Nat) (order : List Nat)
    (ms : List (Nat × Nat)) (s : GameState) (hord : ValidOrder order)
    (h : playMoves fuel (initState order) ms = some s) : Reachable s :=
  ⟨order, hord, playMoves_steps fuel (initState order) ms s h⟩

/-- Transport a decidable property through a concrete engine run. -/
theorem run_prop (fuel : Nat) (s0 : GameState) (ms : List (Nat × Nat))
    (s : GameState) (P : GameState → Prop) [DecidablePred P]
    (h : playMoves fuel s0 ms = some s)
    (hall : (playMoves fuel s0 ms).all (fun t => decide (P t)) = true) : P s := by
  rw [h] at hall
  simpa using hall

/-! ### Elimination check: content lemmas -/

theorem getD_map_range (f : Nat → Bool) (n q : Nat) :
    ((List.range n).map f).getD q false = if q < n then f q else false := by
  rw [List.getD_eq_getElem?_getD, List.getElem?_map]
  by_cases h : q < n
  · rw [List.getElem?_range h, if_pos h]
    rfl
  · rw [if_neg h]
    rw [List.getElem?_eq_none_iff.mpr (by simpa using h)]
    rfl

theorem countP_one_findIdx (l : List Bool) (h : l.countP id = 1) (i : Nat)
    (ht : l.getD i false = true) : l.findIdx id = i := by
  induction l generalizing i with
  | nil => simp at ht
  | cons b t ih =>
    rw [List.countP_cons] at h
    cases hb : b with
    | true =>
      rw [hb] at h
      simp at h
      cases i with
      | zero => simp [List.findIdx_cons]
      | succ j =>
        exfalso
        have hmem : t.getD j false = true := by
          rw [List.getD_eq_getElem?_getD, List.getElem?_cons_succ] at ht
          rw [List.getD_eq_getElem?_getD]
          exact ht
        have hall : ∀ a ∈ t, a = false := by
          intro a ha
          cases hba : a
          · rfl
          · rw [hba] at ha
            exact absurd ha h
        cases hj : t[j]? with
        | none =>
          rw [List.getD_eq_getElem?_getD, hj] at hmem
          exact Bool.noConfusion hmem
        | some a =>
          rw [List.getD_eq_getElem?_getD, hj] at hmem
          have ha : a = true := by simpa using hmem
          rw [hall a (List.getElem?_mem hj)] at ha
          exact Bool.noConfusion ha
    | false =>
      rw [hb] at h
      simp at h
      cases i with
      | zero =>
        rw [List.getD_eq_getElem?_getD] at ht
        simp [hb] at ht
      | succ j =>
        have hrec := ih h j (by
          rw [List.getD_eq_getElem?_getD, List.getElem?_cons_succ] at ht
          rw [List.getD_eq_getElem?_getD]
          exact ht)
        simp [List.findIdx_cons, hrec]

/-- checkElimination with all first-move flags cleared: the alive array is
recomputed from the board, and the game ends with the unique surviving
player as winner exactly when one player owns cells. -/
theorem checkElimination_noFlags (s : GameState)
    (h : s.firstMoves.any id = false) :
    (checkElimination s).playersAlive =
        ((List.range PLAYERS).map fun p => playerHasTiles s.grid p) ∧
      ((List.countP (fun p => playerHasTiles s.grid p) (List.range PLAYERS) = 1 →
          (checkElimination s).gameOver = true ∧
            (checkElimination s).winner =
              some (((List.range PLAYERS).map fun p =>
                playerHasTiles s.grid p).findIdx id)) ∧
        (List.countP (fun p => playerHasTiles s.grid p) (List.range PLAYERS) ≠ 1 →
          (checkElimination s).gameOver = s.gameOver ∧
            (checkElimination s).winner = s.winner)) := by
  have hcnt : ((List.range PLAYERS).map fun p => playerHasTiles s.grid p).countP id =
      List.countP (fun p => playerHasTiles s.grid p) (List.range PLAYERS) := by
    rw [List.countP_map]
    rfl
  unfold checkElimination
  rw [if_neg (by rw [h]; exact Bool.false_ne_true)]
  simp only []
  by_cases hone : List.countP (fun p => playerHasTiles s.grid p) (List.range PLAYERS) = 1
  · rw [if_pos (by rw [hcnt, hone]; rfl)]
    exact ⟨rfl, fun _ => ⟨rfl, rfl⟩, fun hne => absurd hone hne⟩
  · rw [if_neg (by
      intro hc
      apply hone
      rw [← hcnt]
      simpa using hc)]
    exact ⟨rfl, fun hc => absurd hc hone, fun _ => ⟨rfl, rfl⟩⟩

/-! ### Placement and turn-advance: structural lemmas -/

theorem legalMove_some (s : GameState) (row col : Nat)
    (h : legalMove s row col = true) :
    ∃ cell, getCell s.grid row col = some cell := by
  unfold legalMove at h
  cases hcell : getCell s.grid row col with
  | none => rw [hcell] at h; exact Bool.noConfusion h
  | some cell => exact ⟨cell, rfl⟩

theorem applyPlacement_fields (s : GameState) (row col : Nat) (cell : Cell)
    (isFirstMove : Bool) :
    (applyPlacement s row col cell isFirstMove).playerOrder = s.playerOrder ∧
      (applyPlacement s row col cell isFirstMove).turnNumber = s.turnNumber ∧
      (applyPlacement s row col cell isFirstMove).currentPlayer = s.currentPlayer ∧
      (applyPlacement s row col cell isFirstMove).playersAlive = s.playersAlive ∧
      (applyPlacement s row col cell isFirstMove).gameOver = s.gameOver ∧
      (applyPlacement s row col cell isFirstMove).winner = s.winner := by
  unfold applyPlacement
  cases isFirstMove <;> exact ⟨rfl, rfl, rfl, rfl, rfl, rfl⟩

theorem applyPlacement_grid (s : GameState) (row col : Nat) (cell : Cell)
    (isFirstMove : Bool) :
    (applyPlacement s row col cell isFirstMove).grid =
      setCell s.grid row col
        { owner := some s.currentPlayer,
          power := if isFirstMove then 3 else cell.power + 1 } := by
  unfold applyPlacement
  cases isFirstMove
  · rfl
  · rfl

theorem applyPlacement_firstMoves (s : GameState) (row col : Nat) (cell : Cell)
    (isFirstMove : Bool) :
    (applyPlacement s row col cell isFirstMove).firstMoves =
      if isFirstMove then s.firstMoves.set s.currentPlayer false
      else s.firstMoves := by
  unfold applyPlacement
  cases isFirstMove
  · rfl
  · rfl

/-- The turn advance only moves the cursor: board, order, flags, alive set,
game-over flag and winner are untouched. -/
theorem advanceTurn_fields (fuel : Nat) (s s' : GameState)
    (h : advanceTurn fuel s = some s') :
    s'.grid = s.grid ∧ s'.playerOrder = s.playerOrder ∧
      s'.firstMoves = s.firstMoves ∧ s'.playersAlive = s.playersAlive ∧
      s'.gameOver = s.gameOver ∧ s'.winner = s.winner := by
  obtain ⟨m, _, heq, _, _⟩ := skipDead_spec fuel (advanceOnce s) s' h
  have hit : advanceOnce^[m] (advanceOnce s) = advanceOnce^[m + 1] s := by
    rw [Function.iterate_succ_apply]
  rw [hit] at heq
  obtain ⟨_, _, h3, h4, h5, h6, h7, h8⟩ := advanceOnce_iterate s m
  rw [heq]
  exact ⟨h5, h4, h6, h3, h7, h8⟩

/-- The landing state of the turn advance has an alive currentPlayer, read
from playerOrder at the new turnNumber, reached by k increments of the turn
cursor with every skipped candidate dead. -/
theorem advanceTurn_spec (fuel : Nat) (s s' : GameState)
    (h : advanceTurn fuel s = some s') :
    s'.playersAlive.getD s'.currentPlayer false = true ∧
      s'.currentPlayer = s'.playerOrder.getD s'.turnNumber 0 ∧
      ∃ k, 1 ≤ k ∧ s'.turnNumber = (s.turnNumber + k) % PLAYERS ∧
        (∀ j, 1 ≤ j → j < k →
          s.playersAlive.getD
            (s.playerOrder.getD ((s.turnNumber + j) % PLAYERS) 0) false = false) := by
  obtain ⟨m, _, heq, halive, hskip⟩ := skipDead_spec fuel (advanceOnce s) s' h
  have hit : ∀ j : Nat, advanceOnce^[j] (advanceOnce s) = advanceOnce^[j + 1] s := by
    intro j
    rw [Function.iterate_succ_apply]
  rw [hit m] at heq halive
  obtain ⟨ht, hcp, hal, hord, _, _, _, _⟩ := advanceOnce_iterate s m
  refine ⟨?_, ?_, m + 1, by omega, ?_, ?_⟩
  · rw [heq]
    exact halive
  · rw [heq, hcp, ht, hord]
  · rw [heq, ht]
    rfl
  · intro j hj1 hjk
    have hj := hskip (j - 1) (by omega)
    rw [hit (j - 1)] at hj
    have hj1' : j - 1 + 1 = j := by omega
    obtain ⟨ht', hcp', hal', hord', _, _, _, _⟩ := advanceOnce_iterate s (j - 1)
    rw [hj1'] at hj ht' hcp' hal' hord'
    rw [hal', hcp'] at hj
    have harg : s.turnNumber + (j - 1) + 1 = s.turnNumber + j := by omega
    rw [harg] at hj
    exact hj

/-! ### Invariants along reachable states -/

/-- Alive flags are sound for the board: a flagged-alive player owns a cell.
Required only in the states where the elimination check has run, i.e. when
every first-move flag is cleared and the game is not over. -/
def AliveOK (s : GameState) : Prop :=
  s.firstMoves.any id = false → s.gameOver = false →
    (∀ q, s.playersAlive.getD q false = true → playerHasTiles s.grid q = true) ∧
      s.playersAlive.getD s.currentPlayer false = true

theorem initState_gridWF (order : List Nat) : gridWF (initState order).grid := by
  constructor
  · simp [initState]
  · intro row hrow
    rw [List.eq_of_mem_replicate hrow]
    simp

theorem initState_aliveOK (order : List Nat) : AliveOK (initState order) := by
  intro hflags
  have htrue : (initState order).firstMoves.any id = true := by
    show (List.replicate PLAYERS true).any id = true
    decide
  rw [htrue] at hflags
  exact Bool.noConfusion hflags

theorem step_preserves_inv (s s' : GameState) (h : Step s s')
    (hWF : gridWF s.grid) (hOK : AliveOK s) : gridWF s'.grid ∧ AliveOK s' := by
  obtain ⟨fuel, row, col, hret⟩ := h
  rcases placeTile_ret_inv fuel s row col s' hret with
    ⟨_, heq⟩ | ⟨_, _, heq⟩ | ⟨hgo, hleg, g2, hx, hrest⟩
  · rw [heq]; exact ⟨hWF, hOK⟩
  · rw [heq]; exact ⟨hWF, hOK⟩
  · obtain ⟨cell, hcell⟩ := legalMove_some s row col hleg
    have hpp : postPlacement s row col =
        applyPlacement s row col cell (s.firstMoves.getD s.currentPlayer false) := by
      unfold postPlacement
      rw [hcell]
    have hppWF : gridWF (postPlacement s row col).grid := by
      rw [hpp, applyPlacement_grid]
      exact gridWF_setCell _ _ _ _ hWF
    obtain ⟨hg2WF, _⟩ := checkExplosions_spec fuel _ g2 hppWF hx
    set s2 := checkElimination { postPlacement s row col with grid := g2 } with hs2
    have hs2grid : s2.grid = g2 := (checkElimination_fields _).1
    have hs2flags : s2.firstMoves = (postPlacement s row col).firstMoves :=
      (checkElimination_fields _).2.2.2.2
    have hs2alive : s2.firstMoves.any id = false →
        ∀ q, s2.playersAlive.getD q false = true → playerHasTiles g2 q = true := by
      intro hflags q hq
      have hflags' : (postPlacement s row col).firstMoves.any id = false := by
        rw [← hs2flags]
        exact hflags
      obtain ⟨halive, _⟩ := checkElimination_noFlags
        { postPlacement s row col with grid := g2 } hflags'
      rw [hs2] at hq
      rw [halive] at hq
      rw [getD_map_range] at hq
      by_cases hqlt : q < PLAYERS
      · rw [if_pos hqlt] at hq
        exact hq
      · rw [if_neg hqlt] at hq
        exact Bool.noConfusion hq
    rcases hrest with ⟨hg2go, heq⟩ | ⟨hg2go, hadv⟩
    · rw [heq]
      refine ⟨by rw [hs2grid]; exact hg2WF, ?_⟩
      intro _ hgo2
      rw [hg2go] at hgo2
      exact Bool.noConfusion hgo2
    · obtain ⟨hgr, hor, hfm, hal, hgo2, hwin⟩ := advanceTurn_fields fuel s2 s' hadv
      obtain ⟨hlanda, _, _⟩ := advanceTurn_spec fuel s2 s' hadv
      refine ⟨by rw [hgr, hs2grid]; exact hg2WF, ?_⟩
      intro hflags _
      have hflags2 : s2.firstMoves.any id = false := by rw [← hfm]; exact hflags
      constructor
      · intro q hq
        rw [hgr, hs2grid]
        exact hs2alive hflags2 q (by rw [← hal]; exact hq)
      · exact hlanda

theorem reachable_inv (s : GameState) (h : Reachable s) :
    gridWF s.grid ∧ AliveOK s := by
  obtain ⟨order, _, hsteps⟩ := h
  induction hsteps with
  | refl => exact ⟨initState_gridWF order, initState_aliveOK order⟩
  | tail hab hbc ih => exact step_preserves_inv _ _ hbc ih.1 ih.2

/-! ### Ownership: conversions between cell access and membership -/

theorem ownsNone_iff_get (g : Grid) (p : Nat) :
    ownsNone g p ↔
      ∀ r c cell, getCell g r c = some cell → cell.owner ≠ some p := by
  constructor
  · intro h r c cell hget
    unfold getCell at hget
    cases hr : g[r]? with
    | none => rw [hr] at hget; exact Option.noConfusion hget
    | some row =>
      rw [hr] at hget
      change row[c]? = some cell at hget
      exact h row (List.getElem?_mem hr) cell (List.getElem?_mem hget)
  · intro h row hrow cell hcell
    obtain ⟨r, hr⟩ := List.getElem?_of_mem hrow
    obtain ⟨c, hc⟩ := List.getElem?_of_mem hcell
    refine h r c cell ?_
    unfold getCell
    rw [hr]
    exact hc

theorem playerHasTiles_true_exists (g : Grid) (p : Nat)
    (h : playerHasTiles g p = true) :
    ∃ r c cell, getCell g r c = some cell ∧ cell.owner = some p := by
  unfold playerHasTiles at h
  rw [List.any_eq_true] at h
  obtain ⟨row, hrow, h⟩ := h
  rw [List.any_eq_true] at h
  obtain ⟨cell, hcell, h⟩ := h
  obtain ⟨r, hr⟩ := List.getElem?_of_mem hrow
  obtain ⟨c, hc⟩ := List.getElem?_of_mem hcell
  refine ⟨r, c, cell, ?_, by simpa using h⟩
  unfold getCell
  rw [hr]
  exact hc

theorem playerHasTiles_eq_false (g : Grid) (p : Nat)
    (h : ∀ r c cell, getCell g r c = some cell → cell.owner ≠ some p) :
    playerHasTiles g p = false := by
  cases hb : playerHasTiles g p with
  | false => rfl
  | true =>
    obtain ⟨r, c, cell, hget, hown⟩ := playerHasTiles_true_exists g p hb
    exact absurd hown (h r c cell hget)

theorem any_id_false_getD (l : List Bool) (i : Nat) (h : l.any id = false) :
    l.getD i false = false := by
  rw [List.getD_eq_getElem?_getD]
  cases hi : l[i]? with
  | none => rfl
  | some a =>
    cases ha : a with
    | false => rfl
    | true =>
      rw [List.any_eq_false] at h
      exact absurd (by rw [ha] at hi; simpa using hi) fun hmem =>
        h true (List.getElem?_mem hmem) rfl

/-! ### Ownership is never created: the step-level lemma for permanence -/

theorem step_preserves_noOwner (s s' : GameState) (p : Nat) (hstep : Step s s')
    (hflags : s.firstMoves.any id = false)
    (hnone : ∀ r c cell, getCell s.grid r c = some cell → cell.owner ≠ some p)
    (hcp : s.gameOver = false → s.currentPlayer ≠ p) :
    s'.firstMoves.any id = false ∧
      (∀ r c cell, getCell s'.grid r c = some cell → cell.owner ≠ some p) ∧
      (s'.gameOver = false → s'.currentPlayer ≠ p) := by
  obtain ⟨fuel, row, col, hret⟩ := hstep
  rcases placeTile_ret_inv fuel s row col s' hret with
    ⟨_, heq⟩ | ⟨_, _, heq⟩ | ⟨hgo, hleg, g2, hx, hrest⟩
  · rw [heq]; exact ⟨hflags, hnone, hcp⟩
  · rw [heq]; exact ⟨hflags, hnone, hcp⟩
  · obtain ⟨cell, hcell⟩ := legalMove_some s row col hleg
    have hfirst : s.firstMoves.getD s.currentPlayer false = false :=
      any_id_false_getD s.firstMoves s.currentPlayer hflags
    have hpp : postPlacement s row col = applyPlacement s row col cell false := by
      unfold postPlacement
      rw [hcell, hfirst]
    have hppflags : (postPlacement s row col).firstMoves = s.firstMoves := by
      rw [hpp, applyPlacement_firstMoves]
      rfl
    have hppgrid : (postPlacement s row col).grid =
        setCell s.grid row col
          { owner := some s.currentPlayer, power := cell.power + 1 } := by
      rw [hpp, applyPlacement_grid]
      rfl
    have hcur : s.currentPlayer ≠ p := hcp hgo
    have hppnone : ∀ r c cell2, getCell (postPlacement s row col).grid r c = some cell2 →
        cell2.owner ≠ some p := by
      intro r c cell2 hget
      rw [hppgrid] at hget
      rcases getCell_setCell_cases _ _ _ _ _ _ _ hget with hx2 | hx2
      · rw [hx2]
        intro hq
        exact hcur (Option.some.inj hq)
      · exact hnone r c cell2 hx2
    have hg2none : ∀ r c cell2, getCell g2 r c = some cell2 → cell2.owner ≠ some p :=
      runCascade_noOwner fuel _ _ g2 p hppnone hx
    set s2 := checkElimination { postPlacement s row col with grid := g2 } with hs2
    have hs2grid : s2.grid = g2 := (checkElimination_fields _).1
    have hs2flags : s2.firstMoves = s.firstMoves := by
      rw [hs2, (checkElimination_fields _).2.2.2.2]
      exact hppflags
    have hs2flagsF : s2.firstMoves.any id = false := by rw [hs2flags]; exact hflags
    rcases hrest with ⟨hg2go, heq⟩ | ⟨hg2go, hadv⟩
    · rw [heq]
      refine ⟨hs2flagsF, by rw [hs2grid]; exact hg2none, ?_⟩
      intro hgof
      rw [hg2go] at hgof
      exact absurd hgof (by intro hq; exact Bool.noConfusion hq)
    · obtain ⟨hgr, _, hfm, hal, _, _⟩ := advanceTurn_fields fuel s2 s' hadv
      obtain ⟨hlanda, _, _⟩ := advanceTurn_spec fuel s2 s' hadv
      refine ⟨by rw [hfm]; exact hs2flagsF, by rw [hgr, hs2grid]; exact hg2none, ?_⟩
      intro _ hpe
      have hflags2 : ({ postPlacement s row col with grid := g2 } :
          GameState).firstMoves.any id = false := by
        show (postPlacement s row col).firstMoves.any id = false
        rw [hppflags]
        exact hflags
      obtain ⟨halive2, _⟩ := checkElimination_noFlags
        { postPlacement s row col with grid := g2 } hflags2
      rw [hal, hs2] at hlanda
      rw [halive2, getD_map_range] at hlanda
      by_cases hqlt : s'.currentPlayer < PLAYERS
      · rw [if_pos hqlt] at hlanda
        have hhas : playerHasTiles g2 s'.currentPlayer = true := hlanda
        rw [hpe] at hhas
        rw [playerHasTiles_eq_false g2 p hg2none] at hhas
        exact Bool.noConfusion hhas
      · rw [if_neg hqlt] at hlanda
        exact Bool.noConfusion hlanda

/-! ### Reachable states keep every cell below capacity -/

theorem initState_belowCap (order : List Nat) :
    ∀ r c cell, getCell (initState order).grid r c = some cell →
      cell.power < maxCapacity r c := by
  intro r c cell hget
  unfold getCell initState at hget
  cases hr : (List.replicate ROWS (List.replicate COLS
      ({ owner := none, power := 0 } : Cell)))[r]? with
  | none => rw [hr] at hget; exact Option.noConfusion hget
  | some row =>
    rw [hr] at hget
    change row[c]? = some cell at hget
    have hrow : row = List.replicate COLS { owner := none, power := 0 } :=
      List.eq_of_mem_replicate (List.getElem?_mem hr)
    rw [hrow] at hget
    have : cell = { owner := none, power := 0 } :=
      List.eq_of_mem_replicate (List.getElem?_mem hget)
    rw [this]
    exact Nat.succ_pos 3

theorem step_belowCap (s s' : GameState) (h : Step s s') (hWF : gridWF s.grid)
    (hbc : ∀ r c cell, getCell s.grid r c = some cell →
      cell.power < maxCapacity r c) :
    ∀ r c cell, getCell s'.grid r c = some cell → cell.power < maxCapacity r c := by
  obtain ⟨fuel, row, col, hret⟩ := h
  rcases placeTile_ret_inv fuel s row col s' hret with
    ⟨_, heq⟩ | ⟨_, _, heq⟩ | ⟨hgo, hleg, g2, hx, hrest⟩
  · rw [heq]; exact hbc
  · rw [heq]; exact hbc
  · obtain ⟨cell, hcell⟩ := legalMove_some s row col hleg
    have hppWF : gridWF (postPlacement s row col).grid := by
      unfold postPlacement
      rw [hcell, applyPlacement_grid]
      exact gridWF_setCell _ _ _ _ hWF
    obtain ⟨_, hbc2⟩ := checkExplosions_spec fuel _ g2 hppWF hx
    have hgrid : s'.grid = g2 := by
      rcases hrest with ⟨_, heq⟩ | ⟨_, hadv⟩
      · rw [heq]
        exact (checkElimination_fields _).1
      · rw [(advanceTurn_fields fuel _ s' hadv).1]
        exact (checkElimination_fields _).1
    rw [hgrid]
    exact hbc2

theorem reachable_belowCap (s : GameState) (h : Reachable s) :
    ∀ r c cell, getCell s.grid r c = some cell → cell.power < maxCapacity r c := by
  obtain ⟨order, hord, hsteps⟩ := h
  induction hsteps with
  | refl => exact initState_belowCap order
  | @tail b c hab hstep ih =>
    exact step_belowCap b c hstep (reachable_inv b ⟨order, hord, hab⟩).1 ih

/-- C1: in every reachable game state, and in particular whenever an accepted
legal placeTile call returns, every cell of the grid has power strictly below
the fixed capacity 4; no cell stays at or above the explosion threshold
between moves. -/
theorem C1_no_cell_at_or_above_capacity (s : GameState) (fuel row col : Nat)
    (s' : GameState) (hreach : Reachable s)
    (_haccepted : legalMove s row col = true)
    (hret : placeTile fuel s row col = .ret s') :
    ∀ r c cell, getCell s'.grid r c = some cell → cell.power < maxCapacity r c := by
  obtain ⟨order, hord, hsteps⟩ := hreach
  exact reachable_belowCap s'
    ⟨order, hord, hsteps.tail ⟨fuel, row, col, hret⟩⟩

theorem C1_witness :
    ∃ s', placeTile 20 (initState [0, 1, 2, 3]) 0 0 = .ret s' ∧
      ∀ r c cell, getCell s'.grid r c = some cell → cell.power < maxCapacity r c := by
  cases hp : placeTile 20 (initState [0, 1, 2, 3]) 0 0 with
  | ret s' =>
    exact ⟨s', rfl, C1_no_cell_at_or_above_capacity (initState [0, 1, 2, 3]) 20 0 0 s'
      ⟨[0, 1, 2, 3], by decide, Relation.ReflTransGen.refl⟩ (by decide) hp⟩
  | typeError => exact absurd hp (by decide)
  | outOfFuel => exact absurd hp (by decide)

/-- C5: one dequeue of the cascade records the exploding cell's owner, resets
the cell to power 0 and no owner, and gives each existing orthogonal
neighbour (exactly 2 at a corner, 3 at an edge, 4 in the interior, never out
of bounds) one extra power and — unconditionally — the exploding owner,
enqueuing it with wave + 1 exactly when its new power reaches capacity. -/
theorem C5_explosion_step_semantics (g : Grid) (r c wave : Nat)
    (hWF : gridWF g) (hr : r < ROWS) (hc : c < COLS) :
    (∀ p ∈ getNeighbors r c, p.1 < ROWS ∧ p.2 < COLS ∧ p ≠ (r, c)) ∧
      ((r = 0 ∨ r = ROWS - 1) ∧ (c = 0 ∨ c = COLS - 1) →
        (getNeighbors r c).length = 2) ∧
      ((((r = 0 ∨ r = ROWS - 1) ∧ 0 < c ∧ c < COLS - 1) ∨
          ((c = 0 ∨ c = COLS - 1) ∧ 0 < r ∧ r < ROWS - 1)) →
        (getNeighbors r c).length = 3) ∧
      (0 < r ∧ r < ROWS - 1 ∧ 0 < c ∧ c < COLS - 1 →
        (getNeighbors r c).length = 4) ∧
      getCell (explodeStep g r c wave).1 r c = some { owner := none, power := 0 } ∧
      (∀ p ∈ getNeighbors r c, ∃ old, getCell g p.1 p.2 = some old ∧
        getCell (explodeStep g r c wave).1 p.1 p.2 =
          some { owner := (getCell g r c).bind Cell.owner, power := old.power + 1 }) ∧
      (∀ r' c', (r', c') ≠ (r, c) → (r', c') ∉ getNeighbors r c →
        getCell (explodeStep g r c wave).1 r' c' = getCell g r' c') ∧
      (explodeStep g r c wave).2 =
        (getNeighbors r c).filterMap (enqueueEntry g wave) := by
  obtain ⟨es1, es2, es3, es4⟩ := explodeStep_spec g r c wave hWF hr hc
  refine ⟨?_, ?_, ?_, ?_, es1, es2, es3, es4⟩
  · intro p hp
    obtain ⟨h1, h2⟩ := getNeighbors_lt r c hr hc p hp
    exact ⟨h1, h2, getNeighbors_ne_self r c p hp⟩
  · intro hcorner
    rw [length_getNeighbors]
    unfold ROWS COLS at *
    split_ifs <;> omega
  · intro hedge
    rw [length_getNeighbors]
    unfold ROWS COLS at *
    split_ifs <;> omega
  · intro hmid
    rw [length_getNeighbors]
    unfold ROWS COLS at *
    split_ifs <;> omega

theorem C5_witness :
    (∀ p ∈ getNeighbors 0 0, p.1 < ROWS ∧ p.2 < COLS ∧ p ≠ (0, 0)) ∧
      ((0 = 0 ∨ 0 = ROWS - 1) ∧ (0 = 0 ∨ 0 = COLS - 1) →
        (getNeighbors 0 0).length = 2) ∧
      ((((0 = 0 ∨ 0 = ROWS - 1) ∧ 0 < 0 ∧ 0 < COLS - 1) ∨
          ((0 = 0 ∨ 0 = COLS - 1) ∧ 0 < 0 ∧ 0 < ROWS - 1)) →
        (getNeighbors 0 0).length = 3) ∧
      (0 < 0 ∧ 0 < ROWS - 1 ∧ 0 < 0 ∧ 0 < COLS - 1 →
        (getNeighbors 0 0).length = 4) ∧
      getCell (explodeStep (initState [0, 1, 2, 3]).grid 0 0 0).1 0 0 =
        some { owner := none, power := 0 } ∧
      (∀ p ∈ getNeighbors 0 0, ∃ old,
        getCell (initState [0, 1, 2, 3]).grid p.1 p.2 = some old ∧
        getCell (explodeStep (initState [0, 1, 2, 3]).grid 0 0 0).1 p.1 p.2 =
          some { owner := (getCell (initState [0, 1, 2, 3]).grid 0 0).bind Cell.owner,
                 power := old.power + 1 }) ∧
      (∀ r' c', (r', c') ≠ (0, 0) → (r', c') ∉ getNeighbors 0 0 →
        getCell (explodeStep (initState [0, 1, 2, 3]).grid 0 0 0).1 r' c' =
          getCell (initState [0, 1, 2, 3]).grid r' c') ∧
      (explodeStep (initState [0, 1, 2, 3]).grid 0 0 0).2 =
        (getNeighbors 0 0).filterMap (enqueueEntry (initState [0, 1, 2, 3]).grid 0) :=
  C5_explosion_step_semantics (initState [0, 1, 2, 3]).grid 0 0 0
    (initState_gridWF [0, 1, 2, 3]) (by decide) (by decide)

/-- C7 (amended): a placeTile call with an out-of-bounds coordinate on a game
that is not over throws a TypeError (reading a property of a JS undefined)
before any state mutation; no OutOfBounds error result is reported, because
placeTile performs no bounds check of its own. -/
theorem C7_out_of_bounds_throws (s : GameState) (fuel row col : Nat)
    (hWF : gridWF s.grid) (hGO : s.gameOver = false)
    (hoob : ROWS ≤ row ∨ COLS ≤ col) :
    placeTile fuel s row col = .typeError := by
  apply placeTile_oob fuel s row col hGO
  cases hget : getCell s.grid row col with
  | none => rfl
  | some cell =>
    obtain ⟨hr2, hc2⟩ := getCell_lt s.grid row col cell hWF hget
    rcases hoob with hb | hb <;> omega

theorem C7_witness : placeTile 10 (initState [0, 1, 2, 3]) 9 3 = .typeError :=
  C7_out_of_bounds_throws (initState [0, 1, 2, 3]) 10 9 3
    (initState_gridWF [0, 1, 2, 3]) rfl (Or.inl (by decide))

/-- C7 counterexample to the claim as stated: the very first out-of-bounds
call already produces the thrown TypeError, not a reported OutOfBounds
rejection. -/
theorem C7_counterexample_throws_not_reports :
    Reachable (initState [0, 1, 2, 3]) ∧
      placeTile 10 (initState [0, 1, 2, 3]) ROWS 0 = .typeError ∧
      placeTile 10 (initState [0, 1, 2, 3]) 0 COLS = .typeError :=
  ⟨⟨[0, 1, 2, 3], by decide, Relation.ReflTransGen.refl⟩, by decide, by decide⟩

/-- C10: once every first-move flag is cleared and a player owns zero cells
in a reachable state, that player owns zero cells in every later reachable
state, and while the game is running is never again the current player. -/
theorem C10_elimination_permanent (s : GameState) (p : Nat)
    (hreach : Reachable s) (hflags : s.firstMoves.any id = false)
    (hnone : ownsNone s.grid p) (t : GameState)
    (hlater : Relation.ReflTransGen Step s t) :
    ownsNone t.grid p ∧ (t.gameOver = false → t.currentPlayer ≠ p) := by
  obtain ⟨hWF, hOK⟩ := reachable_inv s hreach
  have hnone' := (ownsNone_iff_get s.grid p).mp hnone
  have hcp : s.gameOver = false → s.currentPlayer ≠ p := by
    intro hgo hpe
    obtain ⟨hsync, halive⟩ := hOK hflags hgo
    have hhas := hsync s.currentPlayer halive
    rw [hpe] at hhas
    obtain ⟨r, c, cell, hget, hown⟩ := playerHasTiles_true_exists _ _ hhas
    exact hnone' r c cell hget hown
  have key : t.firstMoves.any id = false ∧
      (∀ r c cell, getCell t.grid r c = some cell → cell.owner ≠ some p) ∧
      (t.gameOver = false → t.currentPlayer ≠ p) := by
    induction hlater with
    | refl => exact ⟨hflags, hnone', hcp⟩
    | tail hab hbc ih =>
      exact step_preserves_noOwner _ _ p hbc ih.1 ih.2.1 ih.2.2
  exact ⟨(ownsNone_iff_get t.grid p).mpr key.2.1, key.2.2⟩

def movesC10 : List (Nat × Nat) := [(0, 0), (0, 1), (4, 4), (6, 6), (0, 0)]

theorem C10_witness :
    ∃ s, Reachable s ∧ s.firstMoves.any id = false ∧ ownsNone s.grid 1 ∧
      (s.gameOver = false → s.currentPlayer ≠ 1) := by
  cases hrun : playMoves 50 (initState [0, 1, 2, 3]) movesC10 with
  | none => exact absurd hrun (by decide)
  | some s =>
    have hreach := playMoves_reachable 50 [0, 1, 2, 3] movesC10 s (by decide) hrun
    have hflags : s.firstMoves.any id = false :=
      run_prop 50 (initState [0, 1, 2, 3]) movesC10 s
        (fun t => t.firstMoves.any id = false) hrun (by decide)
    have hnone : ownsNone s.grid 1 :=
      run_prop 50 (initState [0, 1, 2, 3]) movesC10 s
        (fun t => ownsNone t.grid 1) hrun (by decide)
    obtain ⟨h1, h2⟩ := C10_elimination_permanent s 1 hreach hflags hnone s
      Relation.ReflTransGen.refl
    exact ⟨s, hreach, hflags, h1, h2⟩

/-- C6 (amended): move legality is exactly "first move on an unowned cell, or
later move on an own cell"; a first placement writes power 3 and clears the
mover's flag, a later placement adds one power; any other in-bounds
combination is silently ignored — placeTile returns normally with the state
(board and turn) exactly unchanged, and no IllegalMove error exists to be
reported. -/
theorem C6_legality_and_atomicity (s : GameState) (row col : Nat) (cell : Cell)
    (hGO : s.gameOver = false) (hcell : getCell s.grid row col = some cell) :
    (legalMove s row col = true ↔
        ((s.firstMoves.getD s.currentPlayer false = true ∧ cell.owner = none) ∨
          (s.firstMoves.getD s.currentPlayer false = false ∧
            cell.owner = some s.currentPlayer))) ∧
      (legalMove s row col = false → ∀ fuel, placeTile fuel s row col = .ret s) ∧
      (s.firstMoves.getD s.currentPlayer false = true →
        getCell (postPlacement s row col).grid row col =
            some { owner := some s.currentPlayer, power := 3 } ∧
          (postPlacement s row col).firstMoves =
            s.firstMoves.set s.currentPlayer false) ∧
      (s.firstMoves.getD s.currentPlayer false = false →
        getCell (postPlacement s row col).grid row col =
            some { owner := some s.currentPlayer, power := cell.power + 1 } ∧
          (postPlacement s row col).firstMoves = s.firstMoves) := by
  have hsome : (getCell s.grid row col).isSome := by rw [hcell]; rfl
  refine ⟨?_, ?_, ?_, ?_⟩
  · unfold legalMove
    rw [hcell]
    cases hf : s.firstMoves.getD s.currentPlayer false <;>
      cases howner : cell.owner <;>
        simp [beq_iff_eq, howner]
  · intro hno fuel
    exact placeTile_illegal fuel s row col cell hGO hcell hno
  · intro hfirst
    have hpp : postPlacement s row col = applyPlacement s row col cell true := by
      unfold postPlacement
      rw [hcell, hfirst]
    rw [hpp, applyPlacement_grid, applyPlacement_firstMoves]
    refine ⟨?_, rfl⟩
    rw [getCell_setCell_self s.grid row col _ hsome]
    rfl
  · intro hlater
    have hpp : postPlacement s row col = applyPlacement s row col cell false := by
      unfold postPlacement
      rw [hcell, hlater]
    rw [hpp, applyPlacement_grid, applyPlacement_firstMoves]
    refine ⟨?_, rfl⟩
    rw [getCell_setCell_self s.grid row col _ hsome]
    rfl

theorem C6_witness :
    (legalMove (initState [0, 1, 2, 3]) 0 0 = true ↔
        (((initState [0, 1, 2, 3]).firstMoves.getD
              (initState [0, 1, 2, 3]).currentPlayer false = true ∧
            ({ owner := none, power := 0 } : Cell).owner = none) ∨
          ((initState [0, 1, 2, 3]).firstMoves.getD
              (initState [0, 1, 2, 3]).currentPlayer false = false ∧
            ({ owner := none, power := 0 } : Cell).owner =
              some (initState [0, 1, 2, 3]).currentPlayer))) ∧
      (legalMove (initState [0, 1, 2, 3]) 0 0 = false →
        ∀ fuel, placeTile fuel (initState [0, 1, 2, 3]) 0 0 =
          .ret (initState [0, 1, 2, 3])) ∧
      ((initState [0, 1, 2, 3]).firstMoves.getD
          (initState [0, 1, 2, 3]).currentPlayer false = true →
        getCell (postPlacement (initState [0, 1, 2, 3]) 0 0).grid 0 0 =
            some { owner := some (initState [0, 1, 2, 3]).currentPlayer, power := 3 } ∧
          (postPlacement (initState [0, 1, 2, 3]) 0 0).firstMoves =
            (initState [0, 1, 2, 3]).firstMoves.set
              (initState [0, 1, 2, 3]).currentPlayer false) ∧
      ((initState [0, 1, 2, 3]).firstMoves.getD
          (initState [0, 1, 2, 3]).currentPlayer false = false →
        getCell (postPlacement (initState [0, 1, 2, 3]) 0 0).grid 0 0 =
            some { owner := some (initState [0, 1, 2, 3]).currentPlayer,
                   power := ({ owner := none, power := 0 } : Cell).power + 1 } ∧
          (postPlacement (initState [0, 1, 2, 3]) 0 0).firstMoves =
            (initState [0, 1, 2, 3]).firstMoves) :=
  C6_legality_and_atomicity (initState [0, 1, 2, 3]) 0 0
    { owner := none, power := 0 } rfl (by decide)

def movesC6 : List (Nat × Nat) := [(0, 0), (7, 7), (5, 5), (3, 3)]

/-- C6 counterexample to "fails with IllegalMove": a player reinforcing an
opponent's cell gets a plain normal return with the state unchanged — there
is no error value of any kind in the engine. -/
theorem C6_counterexample_silent_rejection :
    ∃ s, Reachable s ∧ s.gameOver = false ∧ s.currentPlayer = 0 ∧
      (∃ cell, getCell s.grid 7 7 = some cell ∧ cell.owner = some 1) ∧
      legalMove s 7 7 = false ∧
      placeTile 30 s 7 7 = .ret s := by
  cases hrun : playMoves 30 (initState [0, 1, 2, 3]) movesC6 with
  | none => exact absurd hrun (by decide)
  | some s =>
    refine ⟨s, playMoves_reachable 30 [0, 1, 2, 3] movesC6 s (by decide) hrun,
      ?_, ?_, ?_, ?_, ?_⟩
    · exact run_prop 30 (initState [0, 1, 2, 3]) movesC6 s
        (fun t => t.gameOver = false) hrun (by decide)
    · exact run_prop 30 (initState [0, 1, 2, 3]) movesC6 s
        (fun t => t.currentPlayer = 0) hrun (by decide)
    · exact run_prop 30 (initState [0, 1, 2, 3]) movesC6 s
        (fun t => ∃ cell, getCell t.grid 7 7 = some cell ∧ cell.owner = some 1)
        hrun (by decide)
    · exact run_prop 30 (initState [0, 1, 2, 3]) movesC6 s
        (fun t => legalMove t 7 7 = false) hrun (by decide)
    · exact run_prop 30 (initState [0, 1, 2, 3]) movesC6 s
        (fun t => placeTile 30 t 7 7 = .ret t) hrun (by decide)

/-- C8: the elimination check does nothing while any first-move flag is
still pending; once all are cleared, a player is marked dead exactly when
they own no cell, and with exactly one owner left the game ends with that
owner as winner. -/
theorem C8_elimination_semantics (fuel : Nat) (s s' : GameState) (row col : Nat)
    (hGO : s.gameOver = false) (hacc : legalMove s row col = true)
    (hret : placeTile fuel s row col = .ret s') :
    (s'.firstMoves.any id = true →
        s'.playersAlive = s.playersAlive ∧ s'.gameOver = false ∧
          s'.winner = s.winner) ∧
      (s'.firstMoves.any id = false →
        ∀ p, p < PLAYERS →
          (s'.playersAlive.getD p false = false ↔
            playerHasTiles s'.grid p = false)) ∧
      (s'.firstMoves.any id = false →
        List.countP (fun p => playerHasTiles s'.grid p) (List.range PLAYERS) = 1 →
          s'.gameOver = true ∧
            ∀ w, w < PLAYERS → playerHasTiles s'.grid w = true →
              s'.winner = some w) := by
  rcases placeTile_ret_inv fuel s row col s' hret with
    ⟨hgo, _⟩ | ⟨_, hleg, _⟩ | ⟨_, _, g2, hx, hrest⟩
  · rw [hgo] at hGO; exact Bool.noConfusion hGO
  · rw [hacc] at hleg; exact Bool.noConfusion hleg
  · obtain ⟨cell, hcell⟩ := legalMove_some s row col hacc
    have hpp : postPlacement s row col =
        applyPlacement s row col cell (s.firstMoves.getD s.currentPlayer false) := by
      unfold postPlacement
      rw [hcell]
    obtain ⟨_, _, _, hppal, hppgo, hppwin⟩ :=
      applyPlacement_fields s row col cell (s.firstMoves.getD s.currentPlayer false)
    have hs2fm : (checkElimination { postPlacement s row col with grid := g2 }).firstMoves =
        (postPlacement s row col).firstMoves :=
      (checkElimination_fields _).2.2.2.2
    have hfields : s'.grid =
          (checkElimination { postPlacement s row col with grid := g2 }).grid ∧
        s'.firstMoves =
          (checkElimination { postPlacement s row col with grid := g2 }).firstMoves ∧
        s'.playersAlive =
          (checkElimination { postPlacement s row col with grid := g2 }).playersAlive ∧
        s'.winner =
          (checkElimination { postPlacement s row col with grid := g2 }).winner := by
      rcases hrest with ⟨_, heq⟩ | ⟨_, hadv⟩
      · rw [heq]; exact ⟨rfl, rfl, rfl, rfl⟩
      · obtain ⟨h1, _, h3, h4, _, h6⟩ := advanceTurn_fields fuel _ s' hadv
        exact ⟨h1, h3, h4, h6⟩
    obtain ⟨hg', hfm', hal', hwin'⟩ := hfields
    have hs2grid : (checkElimination { postPlacement s row col with grid := g2 }).grid =
        g2 := (checkElimination_fields _).1
    refine ⟨?_, ?_, ?_⟩
    · intro hflags
      have hXany : ({ postPlacement s row col with grid := g2 } :
          GameState).firstMoves.any id = true := by
        show (postPlacement s row col).firstMoves.any id = true
        rw [← hs2fm, ← hfm']
        exact hflags
      have hskip := checkElimination_skip { postPlacement s row col with grid := g2 } hXany
      have hs2go : (checkElimination { postPlacement s row col with grid := g2 }).gameOver =
          false := by
        rw [hskip]
        show (postPlacement s row col).gameOver = false
        rw [hpp, hppgo]
        exact hGO
      refine ⟨?_, ?_, ?_⟩
      · rw [hal', hskip]
        show (postPlacement s row col).playersAlive = s.playersAlive
        rw [hpp, hppal]
      · rcases hrest with ⟨hg2go, _⟩ | ⟨_, hadv⟩
        · rw [hg2go] at hs2go
          exact Bool.noConfusion hs2go
        · rw [(advanceTurn_fields fuel _ s' hadv).2.2.2.2.1]
          exact hs2go
      · rw [hwin', hskip]
        show (postPlacement s row col).winner = s.winner
        rw [hpp, hppwin]
    · intro hflags p hp
      have hXany : ({ postPlacement s row col with grid := g2 } :
          GameState).firstMoves.any id = false := by
        show (postPlacement s row col).firstMoves.any id = false
        rw [← hs2fm, ← hfm']
        exact hflags
      obtain ⟨halive, _⟩ := checkElimination_noFlags
        { postPlacement s row col with grid := g2 } hXany
      have hgg : s'.grid = g2 := by rw [hg', hs2grid]
      rw [hal', halive, getD_map_range, if_pos hp, hgg]
    · intro hflags hcount
      have hXany : ({ postPlacement s row col with grid := g2 } :
          GameState).firstMoves.any id = false := by
        show (postPlacement s row col).firstMoves.any id = false
        rw [← hs2fm, ← hfm']
        exact hflags
      obtain ⟨halive, hone, _⟩ := checkElimination_noFlags
        { postPlacement s row col with grid := g2 } hXany
      have hgg : s'.grid = g2 := by rw [hg', hs2grid]
      have hcount2 : List.countP (fun p => playerHasTiles
          ({ postPlacement s row col with grid := g2 } : GameState).grid p)
          (List.range PLAYERS) = 1 := by
        rw [hgg] at hcount
        exact hcount
      obtain ⟨hs2go, hs2win⟩ := hone hcount2
      have hs'go : s'.gameOver = true := by
        rcases hrest with ⟨_, heq⟩ | ⟨hg2gof, _⟩
        · rw [heq]; exact hs2go
        · rw [hs2go] at hg2gof
          exact Bool.noConfusion hg2gof
      refine ⟨hs'go, ?_⟩
      intro w hw hhas
      rw [hwin', hs2win]
      congr 1
      apply countP_one_findIdx
      · rw [List.countP_map]
        exact hcount2
      · rw [getD_map_range, if_pos hw]
        rw [hgg] at hhas
        exact hhas

/-- C9: the turn does not advance once the game is over (neither on a call
after game end, nor on the move that ends the game); after an accepted move
that leaves the game running, the turn index advances by k increments modulo
the player count, 1 ≤ k ≤ 4, every skipped candidate is dead, and the
resulting current player is alive and read from playerOrder at the new
index. -/
theorem C9_turn_advance (fuel : Nat) (s s' : GameState) (row col : Nat)
    (hacc : legalMove s row col = true)
    (hret : placeTile fuel s row col = .ret s') :
    (s.gameOver = true → s' = s) ∧
      (s.gameOver = false → s'.gameOver = true →
        s'.turnNumber = s.turnNumber ∧ s'.currentPlayer = s.currentPlayer) ∧
      (s'.gameOver = false →
        s'.playersAlive.getD s'.currentPlayer false = true ∧
          s'.currentPlayer = s'.playerOrder.getD s'.turnNumber 0 ∧
          ∃ k, 1 ≤ k ∧ k ≤ PLAYERS ∧
            s'.turnNumber = (s.turnNumber + k) % PLAYERS ∧
            ∀ j, 1 ≤ j → j < k →
              s'.playersAlive.getD
                (s'.playerOrder.getD ((s.turnNumber + j) % PLAYERS) 0) false =
                  false) := by
  obtain ⟨cell, hcell⟩ := legalMove_some s row col hacc
  have hpp : postPlacement s row col =
      applyPlacement s row col cell (s.firstMoves.getD s.currentPlayer false) := by
    unfold postPlacement
    rw [hcell]
  refine ⟨?_, ?_, ?_⟩
  · intro hgo
    have h1 := placeTile_gameOver fuel s row col hgo
    rw [h1] at hret
    exact (MoveResult.ret.inj hret).symm
  · intro hgo hgo'
    rcases placeTile_ret_inv fuel s row col s' hret with
      ⟨hgo2, _⟩ | ⟨_, hleg, _⟩ | ⟨_, _, g2, hx, hrest⟩
    · rw [hgo2] at hgo
      exact Bool.noConfusion hgo
    · rw [hacc] at hleg
      exact Bool.noConfusion hleg
    · rcases hrest with ⟨_, heq⟩ | ⟨hg2go, hadv⟩
      · rw [heq]
        constructor
        · rw [(checkElimination_fields _).2.2.1]
          show (postPlacement s row col).turnNumber = s.turnNumber
          rw [hpp]
          exact (applyPlacement_fields s row col cell _).2.1
        · rw [(checkElimination_fields _).2.2.2.1]
          show (postPlacement s row col).currentPlayer = s.currentPlayer
          rw [hpp]
          exact (applyPlacement_fields s row col cell _).2.2.1
      · rw [(advanceTurn_fields fuel _ s' hadv).2.2.2.2.1] at hgo'
        rw [hg2go] at hgo'
        exact Bool.noConfusion hgo'
  · intro hgo'
    rcases placeTile_ret_inv fuel s row col s' hret with
      ⟨hgo2, heq⟩ | ⟨_, hleg, _⟩ | ⟨_, _, g2, hx, hrest⟩
    · rw [heq, hgo2] at hgo'
      exact Bool.noConfusion hgo'
    · rw [hacc] at hleg
      exact Bool.noConfusion hleg
    · rcases hrest with ⟨hg2go, heq⟩ | ⟨hg2go, hadv⟩
      · rw [heq] at hgo'
        rw [hg2go] at hgo'
        exact Bool.noConfusion hgo'
      · obtain ⟨hland, hcporder, k, hk1, hturn, hskip⟩ :=
          advanceTurn_spec fuel _ s' hadv
        have hs2turn :
            (checkElimination { postPlacement s row col with grid := g2 }).turnNumber =
              s.turnNumber := by
          rw [(checkElimination_fields _).2.2.1]
          show (postPlacement s row col).turnNumber = s.turnNumber
          rw [hpp]
          exact (applyPlacement_fields s row col cell _).2.1
        have hs2ord :
            (checkElimination { postPlacement s row col with grid := g2 }).playerOrder =
              s.playerOrder := by
          rw [(checkElimination_fields _).2.1]
          show (postPlacement s row col).playerOrder = s.playerOrder
          rw [hpp]
          exact (applyPlacement_fields s row col cell _).1
        obtain ⟨_, hadvord, _, hadval, _, _⟩ := advanceTurn_fields fuel _ s' hadv
        rw [hs2turn] at hturn hskip
        have hbound : k ≤ PLAYERS := by
          by_contra hgt
          have hgt' : PLAYERS < k := by omega
          have hj := hskip (k - PLAYERS) (by unfold PLAYERS at *; omega)
            (by unfold PLAYERS at *; omega)
          have hmod : (s.turnNumber + (k - PLAYERS)) % PLAYERS =
              (s.turnNumber + k) % PLAYERS := by
            unfold PLAYERS at *
            omega
          rw [hmod, ← hturn] at hj
          rw [← hadvord, ← hcporder, ← hadval] at hj
          rw [hland] at hj
          exact Bool.noConfusion hj
        refine ⟨hland, hcporder, k, hk1, hbound, hturn, ?_⟩
        intro j hj1 hjk
        have hj := hskip j hj1 hjk
        rw [← hadvord, ← hadval] at hj
        exact hj

def movesC9 : List (Nat × Nat) := [(0, 0), (0, 1), (4, 4), (6, 6), (0, 0)]

theorem C9_witness :
    ∃ s s', placeTile 50 s 0 0 = .ret s' ∧ s.gameOver = false ∧
      s'.gameOver = false ∧
      s'.playersAlive.getD s'.currentPlayer false = true ∧
      s'.currentPlayer = s'.playerOrder.getD s'.turnNumber 0 ∧
      (∃ k, 1 ≤ k ∧ k ≤ PLAYERS ∧
        s'.turnNumber = (s.turnNumber + k) % PLAYERS ∧
        ∀ j, 1 ≤ j → j < k →
          s'.playersAlive.getD
            (s'.playerOrder.getD ((s.turnNumber + j) % PLAYERS) 0) false = false) := by
  have happ : playMoves 50 (initState [0, 1, 2, 3])
      ([(0, 0), (0, 1), (4, 4), (6, 6)] ++ [(0, 0)]) =
        (playMoves 50 (initState [0, 1, 2, 3]) [(0, 0), (0, 1), (4, 4), (6, 6)]).bind
          fun t => playMoves 50 t [(0, 0)] :=
    playMoves_append 50 (initState [0, 1, 2, 3]) [(0, 0), (0, 1), (4, 4), (6, 6)] [(0, 0)]
  cases hrun4 : playMoves 50 (initState [0, 1, 2, 3]) [(0, 0), (0, 1), (4, 4), (6, 6)] with
  | none => exact absurd hrun4 (by decide)
  | some s =>
    cases hrun5 : playMoves 50 (initState [0, 1, 2, 3])
        ([(0, 0), (0, 1), (4, 4), (6, 6)] ++ [(0, 0)]) with
    | none => exact absurd hrun5 (by decide)
    | some s' =>
      rw [happ, hrun4] at hrun5
      have hstep : placeTile 50 s 0 0 = .ret s' :=
        playMoves_single 50 s 0 0 s' hrun5
      have hacc : legalMove s 0 0 = true :=
        run_prop 50 (initState [0, 1, 2, 3]) _ s
          (fun t => legalMove t 0 0 = true) hrun4 (by decide)
      have hsgo : s.gameOver = false :=
        run_prop 50 (initState [0, 1, 2, 3]) _ s
          (fun t => t.gameOver = false) hrun4 (by decide)
      have hgo' : s'.gameOver = false := by
        refine run_prop 50 (initState [0, 1, 2, 3])
          ([(0, 0), (0, 1), (4, 4), (6, 6)] ++ [(0, 0)]) s'
          (fun t => t.gameOver = false) ?_ (by decide)
        rw [happ, hrun4]
        exact hrun5
      obtain ⟨_, _, h3⟩ := C9_turn_advance 50 s s' 0 0 hacc hstep
      obtain ⟨ha, hb, hc⟩ := h3 hgo'
      exact ⟨s, s', hstep, hsgo, hgo', ha, hb, hc⟩

def movesC8 : List (Nat × Nat) := [(0, 0), (2, 0), (4, 0), (6, 0)]

theorem C8_witness :
    ∃ s s', placeTile 50 s 0 0 = .ret s' ∧ s'.firstMoves.any id = false ∧
      ∀ p, p < PLAYERS →
        (s'.playersAlive.getD p false = false ↔
          playerHasTiles s'.grid p = false) := by
  have happ : playMoves 50 (initState [0, 1, 2, 3]) (movesC8 ++ [(0, 0)]) =
      (playMoves 50 (initState [0, 1, 2, 3]) movesC8).bind
        fun t => playMoves 50 t [(0, 0)] :=
    playMoves_append 50 (initState [0, 1, 2, 3]) movesC8 [(0, 0)]
  cases hrun4 : playMoves 50 (initState [0, 1, 2, 3]) movesC8 with
  | none => exact absurd hrun4 (by decide)
  | some s =>
    cases hrun5 : playMoves 50 (initState [0, 1, 2, 3]) (movesC8 ++ [(0, 0)]) with
    | none => exact absurd hrun5 (by decide)
    | some s' =>
      rw [happ, hrun4] at hrun5
      have hstep : placeTile 50 s 0 0 = .ret s' :=
        playMoves_single 50 s 0 0 s' hrun5
      have hacc : legalMove s 0 0 = true :=
        run_prop 50 (initState [0, 1, 2, 3]) movesC8 s
          (fun t => legalMove t 0 0 = true) hrun4 (by decide)
      have hsgo : s.gameOver = false :=
        run_prop 50 (initState [0, 1, 2, 3]) movesC8 s
          (fun t => t.gameOver = false) hrun4 (by decide)
      have hflags : s'.firstMoves.any id = false := by
        refine run_prop 50 (initState [0, 1, 2, 3]) (movesC8 ++ [(0, 0)]) s'
          (fun t => t.firstMoves.any id = false) ?_ (by decide)
        rw [happ, hrun4]
        exact hrun5
      obtain ⟨_, h2, _⟩ := C8_elimination_semantics 50 s s' 0 0 hsgo hacc hstep
      exact ⟨s, s', hstep, hflags, h2 hflags⟩

def movesC2 : List (Nat × Nat) := [(1, 1), (0, 1), (1, 0), (0, 0), (1, 1)]

/-- C2 fails on the code: after five legal moves the cell (0, 1) is unowned
with power 2.  The cascade of the fifth move dequeues the twice-enqueued
corner (0, 0) a second time when it is already empty, and the second
explosion writes the null owner onto neighbours while granting them power. -/
theorem C2_counterexample_unowned_with_power :
    ∃ s, Reachable s ∧
      getCell s.grid 0 1 = some { owner := none, power := 2 } ∧
      getCell s.grid 1 0 = some { owner := none, power := 2 } := by
  cases hrun : playMoves 50 (initState [0, 1, 2, 3]) movesC2 with
  | none => exact absurd hrun (by decide)
  | some s =>
    refine ⟨s, playMoves_reachable 50 [0, 1, 2, 3] movesC2 s (by decide) hrun, ?_, ?_⟩
    · exact run_prop 50 (initState [0, 1, 2, 3]) movesC2 s
        (fun t => getCell t.grid 0 1 = some { owner := none, power := 2 }) hrun
        (by decide)
    · exact run_prop 50 (initState [0, 1, 2, 3]) movesC2 s
        (fun t => getCell t.grid 1 0 = some { owner := none, power := 2 }) hrun
        (by decide)

def movesC4 : List (Nat × Nat) := [(4, 4), (3, 4), (4, 3), (3, 3)]

/-- C4 fails on the code: a fifth legal non-first move raises the total
power on the board from 12 to 16 — the phantom second explosion of the
twice-enqueued cell (3, 3) hands out 4 extra power from an empty cell. -/
theorem C4_counterexample_power_not_conserved :
    ∃ s s', Reachable s ∧ s.firstMoves.getD s.currentPlayer false = false ∧
      legalMove s 4 4 = true ∧ placeTile 50 s 4 4 = .ret s' ∧
      totalPower s.grid = 12 ∧ totalPower s'.grid = 16 ∧
      totalPower s.grid + 1 < totalPower s'.grid := by
  have happ : playMoves 50 (initState [0, 1, 2, 3]) (movesC4 ++ [(4, 4)]) =
      (playMoves 50 (initState [0, 1, 2, 3]) movesC4).bind
        fun t => playMoves 50 t [(4, 4)] :=
    playMoves_append 50 (initState [0, 1, 2, 3]) movesC4 [(4, 4)]
  cases hrun4 : playMoves 50 (initState [0, 1, 2, 3]) movesC4 with
  | none => exact absurd hrun4 (by decide)
  | some s =>
    cases hrun5 : playMoves 50 (initState [0, 1, 2, 3]) (movesC4 ++ [(4, 4)]) with
    | none => exact absurd hrun5 (by decide)
    | some s' =>
      rw [happ, hrun4] at hrun5
      have hstep : placeTile 50 s 4 4 = .ret s' :=
        playMoves_single 50 s 4 4 s' hrun5
      refine ⟨s, s',
        playMoves_reachable 50 [0, 1, 2, 3] movesC4 s (by decide) hrun4,
        run_prop 50 (initState [0, 1, 2, 3]) movesC4 s
          (fun t => t.firstMoves.getD t.currentPlayer false = false) hrun4 (by decide),
        run_prop 50 (initState [0, 1, 2, 3]) movesC4 s
          (fun t => legalMove t 4 4 = true) hrun4 (by decide),
        hstep,
        run_prop 50 (initState [0, 1, 2, 3]) movesC4 s
          (fun t => totalPower t.grid = 12) hrun4 (by decide),
        ?_, ?_⟩
      · refine run_prop 50 (initState [0, 1, 2, 3]) (movesC4 ++ [(4, 4)]) s'
          (fun t => totalPower t.grid = 16) ?_ (by decide)
        rw [happ, hrun4]
        exact hrun5
      · have h12 : totalPower s.grid = 12 :=
          run_prop 50 (initState [0, 1, 2, 3]) movesC4 s
            (fun t => totalPower t.grid = 12) hrun4 (by decide)
        have h16 : totalPower s'.grid = 16 := by
          refine run_prop 50 (initState [0, 1, 2, 3]) (movesC4 ++ [(4, 4)]) s'
            (fun t => totalPower t.grid = 16) ?_ (by decide)
          rw [happ, hrun4]
          exact hrun5
        rw [h12, h16]
        omega

def movesC3 : List (Nat × Nat) :=
  [(2, 3), (1, 4), (2, 4), (1, 2), (2, 3), (1, 2), (3, 3), (2, 2), (2, 5), (0, 2),
   (2, 3), (1, 1), (0, 4), (1, 3), (3, 4), (1, 1), (0, 4), (0, 3), (2, 4), (1, 1),
   (0, 4), (2, 1), (1, 5), (1, 0), (0, 5), (2, 2), (0, 5), (1, 3), (3, 4), (0, 1),
   (3, 4), (1, 0), (2, 5), (1, 3), (2, 3), (0, 2), (3, 5), (2, 1), (4, 4), (1, 1),
   (3, 4), (0, 1), (4, 4)]

set_option maxRecDepth 40000

/-- C3 fails on the code: a 43-move game reaches a state whose next legal
move starts a cascade that is still running after 256 = rows × cols ×
capacity dequeues (simulation shows the queue and the total power keep
growing without bound, so the loop never drains).  A cell enqueued twice is
exploded a second time at power below capacity, which mints fresh power and
keeps re-arming the cascade. -/
theorem C3_counterexample_cascade_exceeds_bound :
    ∃ s, Reachable s ∧ s.gameOver = false ∧ legalMove s 0 1 = true ∧
      checkExplosions (ROWS * COLS * maxCapacity 0 1)
        (postPlacement s 0 1).grid = none ∧
      placeTile (ROWS * COLS * maxCapacity 0 1) s 0 1 = .outOfFuel := by
  cases hrun : playMoves 300 (initState [3, 0, 1, 2]) movesC3 with
  | none => exact absurd hrun (by decide)
  | some s =>
    have hbundle := run_prop 300 (initState [3, 0, 1, 2]) movesC3 s
      (fun t => t.gameOver = false ∧ legalMove t 0 1 = true ∧
        checkExplosions (ROWS * COLS * maxCapacity 0 1)
          (postPlacement t 0 1).grid = none ∧
        placeTile (ROWS * COLS * maxCapacity 0 1) t 0 1 = .outOfFuel) hrun
      (by decide)
    exact ⟨s, playMoves_reachable 300 [3, 0, 1, 2] movesC3 s (by decide) hrun,
      hbundle.1, hbundle.2.1, hbundle.2.2.1, hbundle.2.2.2⟩

end ColorWar
